import Mathlib

/-!
# bitflip.c : a verification development

`bitflip.c` is one `main` that parses its options with `getopt`, converts its
single operand with `strtoul`, and prints the operand and up to three XOR
flips of its 16-bit value.

The embedding is shallow.  C strings are lists of characters (the terminating
NUL is the end of the list), the three streams the program writes are lists of
characters, and the C library calls `main` makes (`getopt`, `strtoul`,
`fopen`, `fprintf`, `perror`) are functions written after their documented
behaviour.  What the C implementation leaves open is a field of `World`.
-/

namespace Bitflip

/-- A C string: the characters before the terminating NUL. -/
abbrev CStr := List Char

/-! ## The C implementation's choices -/

/-- The width of `unsigned long`: 32 bits (ILP32) or 64 bits (LP64). -/
inductive DataModel where
  | ILP32
  | LP64
  deriving DecidableEq, Repr

/-- The largest `unsigned long`. -/
def DataModel.ULONG_MAX : DataModel → Nat
  | .ILP32 => 4294967295
  | .LP64 => 18446744073709551615

/-- What the program's surroundings decide: the data model, whether the
environment variable `POSIXLY_CORRECT` is set (then `getopt` stops at the
first operand instead of permuting `argv`), for which paths
`fopen(path, "w")` fails, with the `strerror` text `perror` then prints, and
which paths name the standard output of the process itself, as `/dev/stdout`
does: what is written to such a path once it is open appears on standard
output and no file of that name is made. -/
structure World where
  abi : DataModel
  posixly_correct : Bool
  fopen_errno : CStr → Option CStr
  names_stdout : CStr → Bool

/-! ## `fprintf` conversions and `strtoul` -/

/-- The `%u` conversion: the decimal digits of the value. -/
def fmt_u (n : Nat) : CStr := Nat.toDigits 10 n

/-- The C-locale `isspace`: space, `\t`, `\n`, `\v`, `\f`, `\r`. -/
def isspace (c : Char) : Bool :=
  c.toNat = 32 || (9 ≤ c.toNat && c.toNat ≤ 13)

/-- The C `isdigit`. -/
def isdigit (c : Char) : Bool := 48 ≤ c.toNat && c.toNat ≤ 57

/-- One step of the base-10 accumulation of `strtoul`. -/
def accDigit (acc : Nat) (c : Char) : Nat := 10 * acc + (c.toNat - 48)

/-- The optional sign of the subject sequence of `strtoul`: whether the value
is negated, and the characters after the sign. -/
def strtoulSign : CStr → Bool × CStr
  | '-' :: t => (true, t)
  | '+' :: t => (false, t)
  | s => (false, s)

/-- The call `strtoul(nptr, &endptr, 10)`: the value returned and the string
`endptr` is left pointing at.  Leading white space is skipped, one sign is
allowed, the longest run of digits is converted; without any digit the value is
0 and `endptr` is `nptr`; a value above `ULONG_MAX` gives `ULONG_MAX`; after a
minus sign the value is negated in `unsigned long`. -/
def strtoul (ulongMax : Nat) (nptr : CStr) : Nat × CStr :=
  let sgn := strtoulSign (nptr.dropWhile isspace)
  let ds := sgn.2.takeWhile isdigit
  let endptr := sgn.2.dropWhile isdigit
  if ds = [] then (0, nptr)
  else
    let v := ds.foldl accDigit 0
    if ulongMax < v then (ulongMax, endptr)
    else if sgn.1 then ((ulongMax + 1 - v) % (ulongMax + 1), endptr)
    else (v, endptr)

/-! ## `getopt` -/

/-- The scan state `getopt` keeps between calls, as the partition of
`argv[1..]` it maintains: the elements already taken as options or option
arguments, the operands passed over (they are permuted behind the options),
the unread tail of the option element under scan, the elements not yet looked
at, and `optarg`.  Whenever `nextchar` is empty, `optind` is one more than the
length of `consumed`. -/
structure GetoptState where
  consumed : List CStr
  skipped : List CStr
  nextchar : CStr
  rest : List CStr
  optarg : Option CStr
  deriving DecidableEq, Repr

/-- The state before the first call: `optind = 1`, nothing scanned. -/
def GetoptState.init (args : List CStr) : GetoptState :=
  { consumed := [], skipped := [], nextchar := [], rest := args, optarg := none }

/-- The operands: the elements `argv[optind]` to `argv[argc - 1]` once
`getopt` has returned -1. -/
def GetoptState.operands (s : GetoptState) : List CStr := s.skipped ++ s.rest

/-- The vector `argv` as `getopt` has permuted it (behind `argv[0]`). -/
def GetoptState.argv (prog : CStr) (s : GetoptState) : List CStr :=
  prog :: (s.consumed ++ s.operands)

/-- The variable `optind`. -/
def GetoptState.optind (s : GetoptState) : Nat := 1 + s.consumed.length

/-- What is left to scan, counted in characters and elements. -/
def GetoptState.measure (s : GetoptState) : Nat :=
  s.nextchar.length + (s.rest.map (fun a => a.length + 1)).sum

/-- The test `NONOPTION_P` of `getopt`: the element does not start with `-`, or
is `-` alone. -/
def NONOPTION_P : CStr → Bool
  | '-' :: _ :: _ => false
  | _ => true

/-- The call `strchr(optstring, c)`: the tail of `optstring` from the first
`c` on. -/
def strchr : CStr → Char → Option CStr
  | [], _ => none
  | x :: xs, c => if x = c then some (x :: xs) else strchr xs c

/-- The diagnostic `getopt` prints for an option character it does not know. -/
def invalidOptionMsg (prog : CStr) (c : Char) : CStr :=
  prog ++ ": invalid option -- ".toList ++ [Char.ofNat 39, c, Char.ofNat 39, Char.ofNat 10]

/-- The diagnostic `getopt` prints for an option that lacks its argument. -/
def missingArgMsg (prog : CStr) (c : Char) : CStr :=
  prog ++ ": option requires an argument -- ".toList ++
    [Char.ofNat 39, c, Char.ofNat 39, Char.ofNat 10]

/-- The short-option part of `getopt`: `c` is the option character just read,
`cs` what follows it in the same element (the new `nextchar`), and `s` the
state with that element already counted as consumed.  The result is the return
value (`none` is -1), what was printed on the error stream, and the state. -/
def scanChar (prog optstring : CStr) (c : Char) (cs : CStr) (s : GetoptState) :
    Option Char × CStr × GetoptState :=
  match strchr optstring c with
  | none => (some '?', invalidOptionMsg prog c, { s with nextchar := cs })
  | some temp =>
    if c = ':' ∨ c = ';' then
      (some '?', invalidOptionMsg prog c, { s with nextchar := cs })
    else if temp.tail.head? = some ':' then
      if temp.tail.tail.head? = some ':' then
        -- an option with an optional argument
        (some c, [], { s with nextchar := [],
                              optarg := if cs = [] then none else some cs })
      else if cs ≠ [] then
        (some c, [], { s with nextchar := [], optarg := some cs })
      else
        match s.rest with
        | [] => (some '?', missingArgMsg prog c, { s with nextchar := [] })
        | a :: rest =>
          (some c, [], { s with consumed := s.consumed ++ [a], nextchar := [],
                                rest := rest, optarg := some a })
    else (some c, [], { s with nextchar := cs })

/-- One call `getopt(argc, argv, optstring)`; `posix` is whether `argv` is
scanned in order (`POSIXLY_CORRECT`) rather than permuted. -/
def getopt (posix : Bool) (prog optstring : CStr) (s : GetoptState) :
    Option Char × CStr × GetoptState :=
  match s.nextchar with
  | c :: cs => scanChar prog optstring c cs s
  | [] =>
    -- permuting: pass over the operands in front of the next option
    let nonopts := if posix then [] else s.rest.takeWhile NONOPTION_P
    let rest := if posix then s.rest else s.rest.dropWhile NONOPTION_P
    match rest with
    | [] => (none, [], { s with skipped := s.skipped ++ nonopts, rest := [] })
    | a :: rest1 =>
      if a = "--".toList then
        (none, [], { s with consumed := s.consumed ++ [a],
                            skipped := s.skipped ++ nonopts, rest := rest1 })
      else
        match a with
        | '-' :: c :: cs =>
          scanChar prog optstring c cs
            { s with consumed := s.consumed ++ [a],
                     skipped := s.skipped ++ nonopts, rest := rest1 }
        | _ => (none, [], { s with skipped := s.skipped ++ nonopts, rest := rest })

/-! ## `main` -/

/-- The flags `main` collects in its option loop. -/
structure Options where
  do_even : Bool
  do_odd : Bool
  do_all : Bool
  outfile_name : Option CStr
  deriving DecidableEq, Repr

/-- What a run leaves behind: the exit status, what was written to standard
output and to the error stream, and the file `fopen` created with what was
written to it. -/
structure Outcome where
  status : Int
  stdout : CStr
  stderr : CStr
  file : Option (CStr × CStr)
  deriving DecidableEq, Repr

/-- The text `PrintUsage(prog)` writes to the error stream. -/
def PrintUsage (prog : CStr) : CStr :=
  "Usage: ".toList ++ prog ++ " [-e] [-f] [-a] [-o outputfile] intval\n".toList ++
  "  intval: integer between 1 and 20000 inclusive\n".toList ++
  "  -e: flip even bits (bit positions 0, 2, 4, ...)\n".toList ++
  "  -f: flip odd bits (bit positions 1, 3, 5, ...)\n".toList ++
  "  -a: flip all bits\n".toList ++
  "  -o file: write output to file instead of screen\n".toList

/-- The conversion `(uint16_t)x` of a non-negative value. -/
def uint16 (x : Nat) : Nat := x % 65536

/-- The local `flipped` of the `do_even` block: `original ^ 0x5555`, stored in
a `uint16_t`. -/
def flipped_even (original : Nat) : Nat := uint16 (original ^^^ 0x5555)

/-- The local `flipped` of the `do_odd` block: `original ^ 0xAAAA`. -/
def flipped_odd (original : Nat) : Nat := uint16 (original ^^^ 0xAAAA)

/-- The local `flipped` of the `do_all` block: `original ^ 0xFFFF`. -/
def flipped_all (original : Nat) : Nat := uint16 (original ^^^ 0xFFFF)

/-- Everything `main` writes to `out`, lines 95 to 117. -/
def report (o : Options) (original : Nat) : CStr :=
  ("Value: ".toList ++ fmt_u original ++ "\n".toList) ++
  ((if o.do_even then
      "Even bits flipped: ".toList ++ fmt_u (flipped_even original) ++ "\n".toList
    else []) ++
  ((if o.do_odd then
      "Odd bits flipped: ".toList ++ fmt_u (flipped_odd original) ++ "\n".toList
    else []) ++
  (if o.do_all then
      "All bits flipped: ".toList ++ fmt_u (flipped_all original) ++ "\n".toList
    else [])))

/-- The end of `main`, lines 82 to 125: the output destination is resolved and
the report written to it.  A path that names the standard output of the process
is opened like any other, and the report written to it is on standard output. -/
def main_output (w : World) (o : Options) (original : Nat) : Outcome :=
  match o.outfile_name with
  | none => { status := 0, stdout := report o original, stderr := [], file := none }
  | some name =>
    match w.fopen_errno name with
    | some e =>
      { status := 1, stdout := [],
        stderr := "Error opening output file".toList ++ ": ".toList ++ e ++ "\n".toList,
        file := none }
    | none =>
      if w.names_stdout name then
        { status := 0, stdout := report o original, stderr := [], file := none }
      else
        { status := 0, stdout := [], stderr := [],
          file := some (name, report o original) }

/-- Lines 72 to 80 of `main` on the operand `argv[optind]`: the conversion
and the range check, followed by the end of `main`. -/
def main_convert (w : World) (o : Options) (arg : CStr) : Outcome :=
  let r := strtoul w.abi.ULONG_MAX arg
  let val := r.1
  let endptr := r.2
  if endptr ≠ [] ∨ val < 1 ∨ val > 20000 then
    { status := 1, stdout := [],
      stderr := "Error: intval must be integer in [1, 20000]\n".toList,
      file := none }
  else
    let original := uint16 val
    main_output w o original

/-- The body of `main` after the option loop: the operand count of lines 64 to
70, followed by the conversion of `argv[optind]`. -/
def main_rest (w : World) (prog : CStr) (o : Options) (s : GetoptState) : Outcome :=
  let argv := s.argv prog
  let argc : Int := argv.length
  let optind : Int := s.optind
  if optind ≠ argc - 1 then
    { status := 1, stdout := [],
      stderr := "Error: missing or too many arguments\n".toList ++ PrintUsage prog,
      file := none }
  else main_convert w o (argv.getD s.optind [])

/-- The option loop of `main`, lines 42 to 62: the flags collected and the
state `getopt` is left in when it returns -1, or the outcome of the `default`
branch, which prints the usage message and returns 1. -/
def option_loop (w : World) (prog : CStr) (s : GetoptState) (o : Options) :
    Except Outcome (Options × GetoptState) :=
  match _hg : getopt w.posixly_correct prog "efao:".toList s with
  | (none, _, s1) => .ok (o, s1)
  | (some opt, diag, s1) =>
    if opt = 'e' then option_loop w prog s1 { o with do_even := true }
    else if opt = 'f' then option_loop w prog s1 { o with do_odd := true }
    else if opt = 'a' then option_loop w prog s1 { o with do_all := true }
    else if opt = 'o' then option_loop w prog s1 { o with outfile_name := s1.optarg }
    else
      .error { status := 1, stdout := [], stderr := diag ++ PrintUsage prog, file := none }
termination_by s.measure
decreasing_by
  all_goals
    have hdrop : ∀ l : List CStr,
        ((l.dropWhile NONOPTION_P).map (fun a => a.length + 1)).sum ≤
          (l.map (fun a => a.length + 1)).sum := by
      intro l
      induction l with
      | nil => simp
      | cons a l ih =>
        simp only [List.dropWhile_cons]
        split
        · simp only [List.map_cons, List.sum_cons]; omega
        · exact le_refl _
    have hscan : ∀ (c : Char) (cs : CStr) (t : GetoptState),
        (scanChar prog "efao:".toList c cs t).2.2.measure ≤
          cs.length + (t.rest.map (fun a => a.length + 1)).sum := by
      intro c cs t
      unfold scanChar
      split
      · simp [GetoptState.measure]
      · split
        · simp [GetoptState.measure]
        · split
          · split
            · simp [GetoptState.measure]
            · split
              · simp [GetoptState.measure]
              · split
                · simp [GetoptState.measure]
                · rename_i a rest hr
                  simp [GetoptState.measure, hr]
                  omega
          · simp [GetoptState.measure]
    have h := _hg
    unfold getopt at h
    split at h
    · rename_i c0 cs hn
      have hm := hscan c0 cs s
      rw [h] at hm
      simp only [GetoptState.measure, hn, List.length_cons] at hm ⊢
      omega
    · rename_i hn
      have hd := hdrop s.rest
      simp only at h
      split at h
      · simp at h
      · rename_i a rest1 hr
        split at h
        · simp at h
        · split at h
          · rename_i c0 cs hne
            have hm := hscan c0 cs
              { s with consumed := s.consumed ++ ['-' :: c0 :: cs],
                       skipped := s.skipped ++
                         (if w.posixly_correct then [] else s.rest.takeWhile NONOPTION_P),
                       rest := rest1 }
            rw [h] at hm
            have hs : ((rest1.map (fun a => a.length + 1)).sum + (cs.length + 3)) ≤
                (s.rest.map (fun a => a.length + 1)).sum := by
              cases hp : w.posixly_correct
              · rw [hp] at hr
                simp only [Bool.false_eq_true, if_false] at hr
                rw [hr] at hd
                simp only [List.map_cons, List.sum_cons, List.length_cons] at hd
                omega
              · rw [hp] at hr
                simp only [if_true] at hr
                rw [hr]
                simp only [List.map_cons, List.sum_cons, List.length_cons]
                omega
            simp only [GetoptState.measure, hn, List.length_nil] at hm ⊢
            omega
          · simp at h

/-- The flags `main` starts its option loop with: all clear, no output file. -/
def Options.init : Options :=
  { do_even := false, do_odd := false, do_all := false, outfile_name := none }

/-- The program: `main(argc, argv)` with `argv[0] = prog` and
`argv[1..] = args`. -/
def main (w : World) (prog : CStr) (args : List CStr) : Outcome :=
  match option_loop w prog (GetoptState.init args) Options.init with
  | .error out => out
  | .ok (o, s) => main_rest w prog o s

/-! ## The vocabulary of the statements -/

/-- A command-line flag as the user writes it. -/
inductive Flag where
  | e
  | f
  | a
  | o (path : CStr)
  deriving DecidableEq, Repr

/-- The elements of `argv` a flag is written as. -/
def Flag.words : Flag → List CStr
  | .e => ["-e".toList]
  | .f => ["-f".toList]
  | .a => ["-a".toList]
  | .o path => ["-o".toList, path]

/-- The elements of `argv` a sequence of flags is written as. -/
def flagArgs : List Flag → List CStr
  | [] => []
  | x :: xs => x.words ++ flagArgs xs

/-- What reading a flag does to the flags `main` has collected. -/
def Options.set (o : Options) : Flag → Options
  | .e => { o with do_even := true }
  | .f => { o with do_odd := true }
  | .a => { o with do_all := true }
  | .o path => { o with outfile_name := some path }

/-- The value `optarg` has after a flag has been read. -/
def Flag.optarg (oa : Option CStr) : Flag → Option CStr
  | .o path => some path
  | _ => oa

/-- Whether a flag is `-o` with some path. -/
def Flag.isOutput : Flag → Bool
  | .o _ => true
  | _ => false

/-- The option character of a flag. -/
def Flag.char : Flag → Char
  | .e => 'e'
  | .f => 'f'
  | .a => 'a'
  | .o _ => 'o'

/-- The characters a run of flags is written as inside one `argv` element. -/
def clusterChars (g : List Flag) : CStr := g.map Flag.char

/-- What is wrong with the first faulty option of a command line. -/
inductive BadOption where
  | invalid (c : Char)
  | missingArg
  deriving DecidableEq, Repr

/-- How the option characters of one element end: on a character that is not
an option, on `-o` as the last character, which takes the next element as its
argument, or without either. -/
inductive ClusterEnd where
  | bad (c : Char)
  | needsArg
  | done
  deriving DecidableEq, Repr

/-- The option characters of one element, read from the left: e, f and a are
passed, `o` takes what follows it in the element as its argument, any other
character is not an option. -/
def scanOptionChars : CStr → ClusterEnd
  | [] => .done
  | c :: cs =>
    if c = 'e' ∨ c = 'f' ∨ c = 'a' then scanOptionChars cs
    else if c = 'o' then (if cs = [] then .needsArg else .done)
    else .bad c

/-- The first option character other than e, f, a, o on a command line, or the
`-o` that has no argument because it ends the command line.  Elements are read
from the left up to `--`; an element that does not start with `-`, or is `-`
alone, is an operand and is passed over; the element after an `-o` that ends
its element is the argument of that `-o` and is not read as options. -/
def firstBadOption : List CStr → Option BadOption
  | [] => none
  | [a] =>
    if a = "--".toList then none
    else if NONOPTION_P a then none
    else
      match scanOptionChars (a.drop 1) with
      | .bad c => some (.invalid c)
      | .done => none
      | .needsArg => some .missingArg
  | a :: b :: rest =>
    if a = "--".toList then none
    else if NONOPTION_P a then firstBadOption (b :: rest)
    else
      match scanOptionChars (a.drop 1) with
      | .bad c => some (.invalid c)
      | .done => firstBadOption (b :: rest)
      | .needsArg => firstBadOption rest

/-- The diagnostic `getopt` prints for a faulty option. -/
def BadOption.diag (prog : CStr) : BadOption → CStr
  | .invalid c => invalidOptionMsg prog c
  | .missingArg => missingArgMsg prog 'o'

/-- The outcome of the usage error of lines 64 to 70. -/
def usageError (prog : CStr) : Outcome :=
  { status := 1, stdout := [],
    stderr := "Error: missing or too many arguments\n".toList ++ PrintUsage prog,
    file := none }

/-- The outcome of the range error of lines 75 to 79. -/
def rangeError : Outcome :=
  { status := 1, stdout := [],
    stderr := "Error: intval must be integer in [1, 20000]\n".toList,
    file := none }

/-- The value of a run of decimal digits. -/
def numeralValue (s : CStr) : Nat := s.foldl accDigit 0

/-- A base-10 unsigned integer numeral, nothing before or after its digits,
whose value lies in [1, 20000]. -/
def unsignedInRange (s : CStr) : Bool :=
  !s.isEmpty && s.all isdigit && decide (1 ≤ numeralValue s) && decide (numeralValue s ≤ 20000)

/-- A string without its leading white space and without one plus sign after
that. -/
def stripBlanksAndPlus (s : CStr) : CStr :=
  match s.dropWhile isspace with
  | '+' :: t => t
  | t => t

/-- Whether the first character after the leading white space is a minus
sign. -/
def hasMinusSign (s : CStr) : Bool := (s.dropWhile isspace).head? = some '-'

/-- A 64-bit system with a permuting `getopt` on which every file opens and
`/dev/stdout` names the standard output of the process. -/
def lp64 : World :=
  { abi := .LP64, posixly_correct := false, fopen_errno := fun _ => none,
    names_stdout := fun p => decide (p = "/dev/stdout".toList) }

/-- A 32-bit system with a permuting `getopt` on which every file opens and
`/dev/stdout` names the standard output of the process. -/
def ilp32 : World :=
  { abi := .ILP32, posixly_correct := false, fopen_errno := fun _ => none,
    names_stdout := fun p => decide (p = "/dev/stdout".toList) }

/-! ## The decimal digits of `%u` and `strtoul` -/

/-- The digit character of a value below ten is a digit and has that value. -/
theorem digitChar_spec (d : Nat) (h : d < 10) :
    isdigit (Nat.digitChar d) = true ∧ (Nat.digitChar d).toNat - 48 = d := by
  interval_cases d <;> decide

/-- The digit printer of `%u` yields a non-empty run of digits whose value is
the number printed. -/
theorem toDigitsCore_spec (fuel : Nat) : ∀ (n : Nat) (ds : CStr), n < fuel →
    ∃ c cs, Nat.toDigitsCore 10 fuel n ds = c :: cs ++ ds ∧ isdigit c = true ∧
      (∀ x ∈ cs, isdigit x = true) ∧ (c :: cs).foldl accDigit 0 = n := by
  induction fuel with
  | zero => intro n ds h; omega
  | succ fuel ih =>
    intro n ds h
    have hd := digitChar_spec (n % 10) (Nat.mod_lt _ (by decide))
    by_cases h0 : n / 10 = 0
    · refine ⟨Nat.digitChar (n % 10), [], ?_, hd.1, by simp, ?_⟩
      · simp [Nat.toDigitsCore, h0]
      · simp only [List.foldl, accDigit, hd.2]; omega
    · obtain ⟨c, cs, he, hc, hcs, hv⟩ := ih (n / 10) (Nat.digitChar (n % 10) :: ds) (by omega)
      refine ⟨c, cs ++ [Nat.digitChar (n % 10)], ?_, hc, ?_, ?_⟩
      · simp [Nat.toDigitsCore, h0, he]
      · intro x hx
        rcases List.mem_append.1 hx with hx | hx
        · exact hcs x hx
        · simp at hx; rw [hx]; exact hd.1
      · rw [← List.cons_append, List.foldl_append, hv]
        simp only [List.foldl, accDigit, hd.2]; omega

/-- A digit is not white space. -/
theorem isdigit_not_isspace (c : Char) (h : isdigit c = true) : isspace c = false := by
  simp only [isdigit, isspace, Bool.and_eq_true, Bool.or_eq_false_iff, decide_eq_true_eq,
    decide_eq_false_iff_not, Bool.and_eq_false_iff] at h ⊢
  omega

/-- A digit is not a sign. -/
theorem strtoulSign_digit (c : Char) (cs : CStr) (h : isdigit c = true) :
    strtoulSign (c :: cs) = (false, c :: cs) := by
  unfold strtoulSign
  split
  · rename_i heq; cases heq; exact absurd h (by decide)
  · rename_i heq; cases heq; exact absurd h (by decide)
  · rfl

/-- A run of characters that all pass a test is taken whole. -/
theorem takeWhile_all {p : Char → Bool} (l : CStr) (h : ∀ x ∈ l, p x = true) :
    l.takeWhile p = l ∧ l.dropWhile p = [] := by
  induction l with
  | nil => simp
  | cons a l ih =>
    have ha := h a (List.mem_cons_self _ _)
    have := ih (fun x hx => h x (List.mem_cons_of_mem _ hx))
    simp [List.takeWhile_cons, List.dropWhile_cons, ha, this]

/-- On a non-empty run of digits whose value fits, `strtoul` returns the value
and leaves `endptr` at the end of the string. -/
theorem strtoul_digits (ulongMax : Nat) (c : Char) (cs : CStr) (hc : isdigit c = true)
    (hcs : ∀ x ∈ cs, isdigit x = true) (hv : (c :: cs).foldl accDigit 0 ≤ ulongMax) :
    strtoul ulongMax (c :: cs) = ((c :: cs).foldl accDigit 0, []) := by
  have hall : ∀ x ∈ c :: cs, isdigit x = true := by
    intro x hx
    rcases List.mem_cons.1 hx with hx | hx
    · rw [hx]; exact hc
    · exact hcs x hx
  have htd := takeWhile_all (c :: cs) hall
  have hsp : (c :: cs).dropWhile isspace = c :: cs := by
    simp [List.dropWhile_cons, isdigit_not_isspace c hc]
  unfold strtoul
  simp only [hsp, strtoulSign_digit c cs hc, htd.1, htd.2]
  rw [if_neg (by simp), if_neg (Nat.not_lt.2 hv)]
  simp

/-- Converting the decimal digits of `n` gives `n` back, with nothing left over. -/
theorem strtoul_fmt_u (ulongMax n : Nat) (h : n ≤ ulongMax) :
    strtoul ulongMax (fmt_u n) = (n, []) := by
  obtain ⟨c, cs, he, hc, hcs, hv⟩ := toDigitsCore_spec (n + 1) n [] (Nat.lt_succ_self n)
  have hf : fmt_u n = c :: cs := by simpa [fmt_u, Nat.toDigits] using he
  rw [hf, strtoul_digits ulongMax c cs hc hcs (by rw [hv]; exact h), hv]

/-- The decimal digits of a number start with a digit: they form an operand,
not an option element. -/
theorem fmt_u_nonoption (n : Nat) : NONOPTION_P (fmt_u n) = true := by
  obtain ⟨c, cs, he, hc, _, _⟩ := toDigitsCore_spec (n + 1) n [] (Nat.lt_succ_self n)
  have hf : fmt_u n = c :: cs := by simpa [fmt_u, Nat.toDigits] using he
  rw [hf]
  unfold NONOPTION_P
  split
  · rename_i heq; cases heq; exact absurd hc (by decide)
  · rfl

/-! ## The option loop -/

/-- The option loop ends when `getopt` returns -1. -/
theorem option_loop_done (w : World) (prog : CStr) (s : GetoptState) (o : Options)
    (diag : CStr) (s1 : GetoptState)
    (h : getopt w.posixly_correct prog "efao:".toList s = (none, diag, s1)) :
    option_loop w prog s o = .ok (o, s1) := by
  rw [option_loop]
  split
  · rename_i heq; rw [h] at heq; cases heq; rfl
  · rename_i heq; rw [h] at heq; cases heq

/-- The option loop dispatches on the character `getopt` returns. -/
theorem option_loop_opt (w : World) (prog : CStr) (s : GetoptState) (o : Options)
    (opt : Char) (diag : CStr) (s1 : GetoptState)
    (h : getopt w.posixly_correct prog "efao:".toList s = (some opt, diag, s1)) :
    option_loop w prog s o =
      if opt = 'e' then option_loop w prog s1 { o with do_even := true }
      else if opt = 'f' then option_loop w prog s1 { o with do_odd := true }
      else if opt = 'a' then option_loop w prog s1 { o with do_all := true }
      else if opt = 'o' then option_loop w prog s1 { o with outfile_name := s1.optarg }
      else .error
        { status := 1, stdout := [], stderr := diag ++ PrintUsage prog, file := none } := by
  rw [option_loop]
  split
  · rename_i heq; rw [h] at heq; cases heq
  · rename_i heq; rw [h] at heq; cases heq; rfl

/-- The option loop reads one flag: the flag is recorded and the scan moves
behind its elements. -/
theorem option_loop_flag (w : World) (prog : CStr) (x : Flag) (cons sk r : List CStr)
    (oa : Option CStr) (o : Options) :
    option_loop w prog ⟨cons, sk, [], x.words ++ r, oa⟩ o =
      option_loop w prog ⟨cons ++ x.words, sk, [], r, x.optarg oa⟩ (o.set x) := by
  cases x with
  | e =>
    rw [option_loop_opt w prog _ o 'e' [] ⟨cons ++ ["-e".toList], sk, [], r, oa⟩
      (by cases w.posixly_correct <;> simp [Flag.words, getopt, NONOPTION_P, scanChar, strchr])]
    simp [Options.set, Flag.words, Flag.optarg]
  | f =>
    rw [option_loop_opt w prog _ o 'f' [] ⟨cons ++ ["-f".toList], sk, [], r, oa⟩
      (by cases w.posixly_correct <;> simp [Flag.words, getopt, NONOPTION_P, scanChar, strchr])]
    simp [Options.set, Flag.words, Flag.optarg]
  | a =>
    rw [option_loop_opt w prog _ o 'a' [] ⟨cons ++ ["-a".toList], sk, [], r, oa⟩
      (by cases w.posixly_correct <;> simp [Flag.words, getopt, NONOPTION_P, scanChar, strchr])]
    simp [Options.set, Flag.words, Flag.optarg]
  | o path =>
    rw [option_loop_opt w prog _ o 'o' [] ⟨cons ++ ["-o".toList, path], sk, [], r, some path⟩
      (by cases w.posixly_correct <;> simp [Flag.words, getopt, NONOPTION_P, scanChar, strchr])]
    simp [Options.set, Flag.words, Flag.optarg]

/-- The option loop reads a sequence of flags. -/
theorem option_loop_flags (w : World) (prog : CStr) (fl : List Flag) (sk r : List CStr) :
    ∀ (cons : List CStr) (oa : Option CStr) (o : Options),
      ∃ oa1, option_loop w prog ⟨cons, sk, [], flagArgs fl ++ r, oa⟩ o =
        option_loop w prog ⟨cons ++ flagArgs fl, sk, [], r, oa1⟩ (fl.foldl Options.set o) := by
  induction fl with
  | nil => intro cons oa o; exact ⟨oa, by simp [flagArgs]⟩
  | cons x fl ih =>
    intro cons oa o
    obtain ⟨oa1, h⟩ := ih (cons ++ x.words) (x.optarg oa) (o.set x)
    refine ⟨oa1, ?_⟩
    simp only [flagArgs, List.append_assoc, List.foldl_cons]
    rw [option_loop_flag, h]
    simp only [List.append_assoc]

/-- An operand is not the element `--`. -/
theorem NONOPTION_P_ne_dashdash (a : CStr) (h : NONOPTION_P a = true) : a ≠ "--".toList := by
  intro h1; rw [h1] at h; exact absurd h (by decide)

/-- With only operands left, the option loop ends and every one of them is
behind `optind`. -/
theorem option_loop_operands (w : World) (prog : CStr) (cons ops : List CStr)
    (oa : Option CStr) (o : Options) (hops : ∀ a ∈ ops, NONOPTION_P a = true) :
    ∃ s1, s1.operands = ops ∧
      option_loop w prog ⟨cons, [], [], ops, oa⟩ o = .ok (o, s1) := by
  cases hp : w.posixly_correct
  · refine ⟨⟨cons, ops, [], [], oa⟩, by simp [GetoptState.operands], ?_⟩
    apply option_loop_done w prog _ o []
    have h1 : ops.takeWhile NONOPTION_P = ops := List.takeWhile_eq_self_iff.2 hops
    have h2 : ops.dropWhile NONOPTION_P = [] := List.dropWhile_eq_nil_iff.2 hops
    simp [getopt, hp, h1, h2]
  · refine ⟨⟨cons, [], [], ops, oa⟩, by simp [GetoptState.operands], ?_⟩
    apply option_loop_done w prog _ o []
    cases ops with
    | nil => simp [getopt, hp]
    | cons a r =>
      have ha := hops a (List.mem_cons_self _ _)
      have hne := NONOPTION_P_ne_dashdash a ha
      simp only [getopt, hp, if_true, if_neg hne, List.append_nil]
      split
      · exact absurd ha (by simp [NONOPTION_P])
      · rfl

/-- After `--` the option loop ends, whatever follows. -/
theorem option_loop_dashdash (w : World) (prog : CStr) (cons ops : List CStr)
    (oa : Option CStr) (o : Options) :
    option_loop w prog ⟨cons, [], [], "--".toList :: ops, oa⟩ o =
      .ok (o, ⟨cons ++ ["--".toList], [], [], ops, oa⟩) := by
  apply option_loop_done w prog _ o []
  cases w.posixly_correct <;> simp [getopt, NONOPTION_P]

/-! ## The operand count -/

/-- The operand count of `main`: anything but one operand behind `optind` is
the usage error. -/
theorem main_rest_arity (w : World) (prog : CStr) (o : Options) (s : GetoptState)
    (h : s.operands.length ≠ 1) : main_rest w prog o s = usageError prog := by
  unfold main_rest
  rw [if_pos]
  · rfl
  · simp only [GetoptState.optind, GetoptState.argv, List.length_cons, List.length_append] at h ⊢
    push_cast
    omega

/-- With one operand behind `optind`, `main` converts that operand. -/
theorem main_rest_one (w : World) (prog : CStr) (o : Options) (s : GetoptState) (a : CStr)
    (h : s.operands = [a]) : main_rest w prog o s = main_convert w o a := by
  unfold main_rest
  have hl : s.operands.length = 1 := by rw [h]; rfl
  rw [if_neg]
  · simp only [GetoptState.optind, GetoptState.argv, h]
    congr 1
    rw [Nat.add_comm, List.getD_cons_succ, List.getD_append_right _ _ _ _ (le_refl _)]
    simp
  · simp only [GetoptState.optind, GetoptState.argv, List.length_cons, List.length_append] at hl ⊢
    push_cast
    omega

/-- Flags followed by operands: the flags are collected and the operands are
what is left behind `optind`. -/
theorem option_loop_flags_operands (w : World) (prog : CStr) (fl : List Flag)
    (ops : List CStr) (hops : ∀ a ∈ ops, NONOPTION_P a = true) :
    ∃ s1, s1.operands = ops ∧
      option_loop w prog (GetoptState.init (flagArgs fl ++ ops)) Options.init =
        .ok (fl.foldl Options.set Options.init, s1) := by
  obtain ⟨oa1, h⟩ := option_loop_flags w prog fl [] ops [] none Options.init
  obtain ⟨s1, h1, h2⟩ := option_loop_operands w prog ([] ++ flagArgs fl) ops oa1
    (fl.foldl Options.set Options.init) hops
  exact ⟨s1, h1, by rw [GetoptState.init, h, h2]⟩

/-- Flags followed by `--`: the flags are collected and everything after `--`
is an operand. -/
theorem option_loop_flags_dashdash (w : World) (prog : CStr) (fl : List Flag)
    (ops : List CStr) :
    ∃ s1, s1.operands = ops ∧
      option_loop w prog (GetoptState.init (flagArgs fl ++ "--".toList :: ops)) Options.init =
        .ok (fl.foldl Options.set Options.init, s1) := by
  obtain ⟨oa1, h⟩ := option_loop_flags w prog fl [] ("--".toList :: ops) [] none Options.init
  refine ⟨_, ?_, by rw [GetoptState.init, h, option_loop_dashdash]⟩
  simp [GetoptState.operands]

/-- A run with flags and one operand converts that operand under those flags. -/
theorem main_flags_operand (w : World) (prog : CStr) (fl : List Flag) (a : CStr)
    (ha : NONOPTION_P a = true) :
    main w prog (flagArgs fl ++ [a]) =
      main_convert w (fl.foldl Options.set Options.init) a := by
  obtain ⟨s1, h1, h2⟩ := option_loop_flags_operands w prog fl [a]
    (by intro x hx; rw [List.mem_singleton.1 hx]; exact ha)
  simp only [main, h2]
  exact main_rest_one w prog _ s1 a h1

/-- A run with flags, `--` and one more element converts that element. -/
theorem main_flags_dashdash (w : World) (prog : CStr) (fl : List Flag) (a : CStr) :
    main w prog (flagArgs fl ++ ["--".toList, a]) =
      main_convert w (fl.foldl Options.set Options.init) a := by
  obtain ⟨s1, h1, h2⟩ := option_loop_flags_dashdash w prog fl [a]
  simp only [main, h2]
  exact main_rest_one w prog _ s1 a h1

/-! ## The flags collected and the conversion of a valid operand -/

/-- The three booleans after a sequence of flags: set exactly for the flags
that occur. -/
theorem foldl_set_flags (fl : List Flag) : ∀ o : Options,
    (fl.foldl Options.set o).do_even = (o.do_even || decide (Flag.e ∈ fl)) ∧
    (fl.foldl Options.set o).do_odd = (o.do_odd || decide (Flag.f ∈ fl)) ∧
    (fl.foldl Options.set o).do_all = (o.do_all || decide (Flag.a ∈ fl)) := by
  induction fl with
  | nil => intro o; simp
  | cons x fl ih =>
    intro o
    obtain ⟨h1, h2, h3⟩ := ih (o.set x)
    simp only [List.foldl_cons, h1, h2, h3]
    cases x <;> simp [Options.set, Bool.or_assoc]

/-- Without `-o` among the flags the output file name stays as it was. -/
theorem foldl_set_outfile (fl : List Flag) (h : ∀ x ∈ fl, x.isOutput = false) :
    ∀ o : Options, (fl.foldl Options.set o).outfile_name = o.outfile_name := by
  induction fl with
  | nil => intro o; rfl
  | cons x fl ih =>
    intro o
    have hx := h x (List.mem_cons_self _ _)
    rw [List.foldl_cons, ih (fun y hy => h y (List.mem_cons_of_mem _ hy))]
    cases x <;> simp_all [Options.set, Flag.isOutput]

/-- Both data models have room for the largest valid operand. -/
theorem ULONG_MAX_ge (abi : DataModel) : 65535 ≤ abi.ULONG_MAX := by
  cases abi <;> simp [DataModel.ULONG_MAX]

/-- A value below 2^16 is unchanged by the conversion to `uint16_t`. -/
theorem uint16_of_lt (x : Nat) (h : x < 65536) : uint16 x = x := Nat.mod_eq_of_lt h

/-- The XOR of two 16-bit values is a 16-bit value. -/
theorem xor_lt_65536 (x m : Nat) (hx : x < 65536) (hm : m < 65536) : x ^^^ m < 65536 :=
  Nat.xor_lt_two_pow (n := 16) hx hm

/-- On the decimal digits of a valid operand the conversion succeeds and `main`
goes on to its output with `original` the operand. -/
theorem main_convert_valid (w : World) (o : Options) (n : Nat) (h1 : 1 ≤ n) (h2 : n ≤ 20000) :
    main_convert w o (fmt_u n) = main_output w o n := by
  unfold main_convert
  rw [strtoul_fmt_u _ n (le_trans (by omega) (ULONG_MAX_ge w.abi))]
  simp only
  rw [if_neg (by simp; omega), uint16_of_lt n (by omega)]

/-- The output of a run without `-o` on a valid operand: status 0 and the
report on standard output. -/
theorem main_flags_valid (w : World) (prog : CStr) (fl : List Flag) (n : Nat)
    (h1 : 1 ≤ n) (h2 : n ≤ 20000) (hfl : ∀ x ∈ fl, x.isOutput = false) :
    main w prog (flagArgs fl ++ [fmt_u n]) =
      { status := 0, stdout := report (fl.foldl Options.set Options.init) n,
        stderr := [], file := none } := by
  rw [main_flags_operand w prog fl _ (fmt_u_nonoption n), main_convert_valid w _ n h1 h2]
  unfold main_output
  rw [foldl_set_outfile fl hfl]
  rfl

/-- The report after a sequence of flags, line by line. -/
theorem report_flags (fl : List Flag) (n : Nat) (h : n < 65536) :
    report (fl.foldl Options.set Options.init) n =
      "Value: ".toList ++ fmt_u n ++ "\n".toList ++
      (if Flag.e ∈ fl then "Even bits flipped: ".toList ++ fmt_u (n ^^^ 0x5555) ++ "\n".toList
        else []) ++
      (if Flag.f ∈ fl then "Odd bits flipped: ".toList ++ fmt_u (n ^^^ 0xAAAA) ++ "\n".toList
        else []) ++
      (if Flag.a ∈ fl then "All bits flipped: ".toList ++ fmt_u (n ^^^ 0xFFFF) ++ "\n".toList
        else []) := by
  obtain ⟨he, hf, ha⟩ := foldl_set_flags fl Options.init
  unfold report
  rw [he, hf, ha]
  simp only [flipped_even, flipped_odd, flipped_all,
    uint16_of_lt _ (xor_lt_65536 n 0x5555 h (by decide)),
    uint16_of_lt _ (xor_lt_65536 n 0xAAAA h (by decide)),
    uint16_of_lt _ (xor_lt_65536 n 0xFFFF h (by decide))]
  simp [Options.init]

/-! ## Which operands the conversion accepts -/

/-- Without a minus sign, the sign scan of `strtoul` leaves the string
stripped of its white space and plus sign. -/
theorem strtoulSign_strip (s : CStr) (hs : hasMinusSign s = false) :
    strtoulSign (s.dropWhile isspace) = (false, stripBlanksAndPlus s) := by
  unfold hasMinusSign at hs
  unfold stripBlanksAndPlus strtoulSign
  split
  · rename_i heq; rw [heq] at hs; simp at hs
  · rename_i heq; simp only [heq]
  · rename_i h1 h2
    split
    · rename_i heq; exact absurd heq (h2 _)
    · rfl

/-- A string without a minus sign in front is an operand for `getopt`. -/
theorem nonoption_of_no_minus (s : CStr) (hs : hasMinusSign s = false) :
    NONOPTION_P s = true := by
  unfold NONOPTION_P
  split
  · simp [hasMinusSign, List.dropWhile_cons, isspace] at hs
  · rfl

/-- The result of `strtoul` on a string without a minus sign: the value of
the digits after the white space and plus sign, capped at `ULONG_MAX`. -/
theorem strtoul_no_minus (ulongMax : Nat) (s : CStr) (hs : hasMinusSign s = false) :
    strtoul ulongMax s =
      if (stripBlanksAndPlus s).takeWhile isdigit = [] then (0, s)
      else (min (numeralValue ((stripBlanksAndPlus s).takeWhile isdigit)) ulongMax,
        (stripBlanksAndPlus s).dropWhile isdigit) := by
  unfold strtoul numeralValue
  simp only [strtoulSign_strip s hs]
  split
  · rfl
  · simp only [Bool.false_eq_true, if_false]
    split
    · rename_i h; rw [Nat.min_eq_right (Nat.le_of_lt h)]
    · rename_i h; rw [Nat.min_eq_left (Nat.not_lt.1 h)]

/-- The conversion accepts a numeral in range, after white space and a plus
sign, and `original` is its value. -/
theorem main_convert_accept (w : World) (o : Options) (s : CStr)
    (hs : hasMinusSign s = false) (ha : unsignedInRange (stripBlanksAndPlus s) = true) :
    main_convert w o s = main_output w o (numeralValue (stripBlanksAndPlus s)) := by
  simp only [unsignedInRange, Bool.and_eq_true, Bool.not_eq_true', List.isEmpty_eq_false,
    List.all_eq_true, decide_eq_true_eq] at ha
  obtain ⟨⟨⟨hne, hall⟩, hlo⟩, hhi⟩ := ha
  have htd := takeWhile_all (stripBlanksAndPlus s) hall
  have hmax := ULONG_MAX_ge w.abi
  have hmin : min (numeralValue (stripBlanksAndPlus s)) w.abi.ULONG_MAX =
      numeralValue (stripBlanksAndPlus s) := Nat.min_eq_left (by omega)
  have hcond : ¬ (([] : CStr) ≠ [] ∨ numeralValue (stripBlanksAndPlus s) < 1 ∨
      numeralValue (stripBlanksAndPlus s) > 20000) := by
    intro h
    rcases h with h | h | h
    · exact h rfl
    · omega
    · omega
  unfold main_convert
  simp only [strtoul_no_minus _ s hs, htd.1, htd.2, if_neg hne, hmin, if_neg hcond]
  rw [uint16_of_lt _ (by omega)]

/-- The conversion rejects every string without a minus sign that is not a
numeral in range after its white space and plus sign. -/
theorem main_convert_reject (w : World) (o : Options) (s : CStr)
    (hs : hasMinusSign s = false) (ha : unsignedInRange (stripBlanksAndPlus s) = false) :
    main_convert w o s = rangeError := by
  have hmax := ULONG_MAX_ge w.abi
  unfold main_convert
  simp only [strtoul_no_minus _ s hs]
  by_cases hds : (stripBlanksAndPlus s).takeWhile isdigit = []
  · simp only [if_pos hds]
    rw [if_pos (Or.inr (Or.inl (by decide)))]
    rfl
  · simp only [if_neg hds]
    by_cases hend : (stripBlanksAndPlus s).dropWhile isdigit = []
    · have hall : ∀ x ∈ stripBlanksAndPlus s, isdigit x = true :=
        List.dropWhile_eq_nil_iff.1 hend
      have htd := takeWhile_all (stripBlanksAndPlus s) hall
      rw [htd.1] at hds ⊢
      have hr : ¬ (1 ≤ numeralValue (stripBlanksAndPlus s) ∧
          numeralValue (stripBlanksAndPlus s) ≤ 20000) := by
        intro hr
        have : unsignedInRange (stripBlanksAndPlus s) = true := by
          simp only [unsignedInRange, Bool.and_eq_true, Bool.not_eq_true',
            List.isEmpty_eq_false, List.all_eq_true, decide_eq_true_eq]
          exact ⟨⟨⟨hds, hall⟩, hr.1⟩, hr.2⟩
        rw [this] at ha
        exact absurd ha (by decide)
      have hcond : min (numeralValue (stripBlanksAndPlus s)) w.abi.ULONG_MAX < 1 ∨
          min (numeralValue (stripBlanksAndPlus s)) w.abi.ULONG_MAX > 20000 := by
        rw [Nat.min_def]
        split <;> omega
      rw [if_pos (Or.inr hcond)]
      rfl
    · rw [if_pos (Or.inl hend)]
      rfl

/-- The output file name after a sequence of flags is the path of one of its
`-o` flags, or the name there was before. -/
theorem foldl_set_outfile_mem (fl : List Flag) : ∀ (o : Options) (p : CStr),
    (fl.foldl Options.set o).outfile_name = some p →
      Flag.o p ∈ fl ∨ o.outfile_name = some p := by
  induction fl with
  | nil => intro o p h; exact Or.inr h
  | cons x fl ih =>
    intro o p h
    rcases ih (o.set x) p h with h1 | h1
    · exact Or.inl (List.mem_cons_of_mem _ h1)
    · cases x <;> simp_all [Options.set]

/-- The end of `main` exits with status 0 when the output file opens. -/
theorem main_output_status (w : World) (o : Options) (n : Nat)
    (h : ∀ p, o.outfile_name = some p → w.fopen_errno p = none) :
    (main_output w o n).status = 0 := by
  unfold main_output
  split
  · rfl
  · rename_i name hname
    rw [h name hname]
    simp only
    split <;> rfl

/-! ## The option loop on any scan state -/

/-- The option loop fails only through its `default` branch: status 1, nothing
on standard output, no file, and an error stream that is what `getopt` printed
followed by the usage message. -/
theorem option_loop_error (w : World) (prog : CStr) (s : GetoptState) (o : Options) :
    ∀ out, option_loop w prog s o = .error out →
      out.status = 1 ∧ out.stdout = [] ∧ out.file = none ∧
        ∃ diag, out.stderr = diag ++ PrintUsage prog := by
  induction s, o using option_loop.induct w prog with
  | case1 s o d s1 h =>
    intro out hout
    rw [option_loop_done w prog s o d s1 h] at hout
    cases hout
  | case2 s o d s1 h ih =>
    intro out hout
    rw [option_loop_opt w prog s o _ d s1 h, if_pos rfl] at hout
    exact ih out hout
  | case3 s o d s1 h h1 ih =>
    intro out hout
    rw [option_loop_opt w prog s o _ d s1 h, if_neg h1, if_pos rfl] at hout
    exact ih out hout
  | case4 s o d s1 h h1 h2 ih =>
    intro out hout
    rw [option_loop_opt w prog s o _ d s1 h, if_neg h1, if_neg h2, if_pos rfl] at hout
    exact ih out hout
  | case5 s o d s1 h h1 h2 h3 ih =>
    intro out hout
    rw [option_loop_opt w prog s o _ d s1 h, if_neg h1, if_neg h2, if_neg h3, if_pos rfl] at hout
    exact ih out hout
  | case6 s o opt d s1 h h1 h2 h3 h4 =>
    intro out hout
    rw [option_loop_opt w prog s o _ d s1 h, if_neg h1, if_neg h2, if_neg h3, if_neg h4] at hout
    cases hout
    exact ⟨rfl, rfl, rfl, d, rfl⟩

/-- The option loop sees the scan state only through what `getopt` returns. -/
theorem option_loop_congr (w : World) (prog : CStr) (s t : GetoptState) (o : Options)
    (h : getopt w.posixly_correct prog "efao:".toList s =
      getopt w.posixly_correct prog "efao:".toList t) :
    option_loop w prog s o = option_loop w prog t o := by
  rcases hg : getopt w.posixly_correct prog "efao:".toList t with ⟨r, d, s1⟩
  cases r with
  | none =>
    rw [option_loop_done w prog s o d s1 (h.trans hg), option_loop_done w prog t o d s1 hg]
  | some c =>
    rw [option_loop_opt w prog s o c d s1 (h.trans hg), option_loop_opt w prog t o c d s1 hg]

/-- Inside an element, `getopt` returns a flag without argument and moves one
character on. -/
theorem option_loop_nextchar_flag (w : World) (prog : CStr) (x : Flag)
    (hx : x.isOutput = false) (cons sk : List CStr) (cs : CStr) (r : List CStr)
    (oa : Option CStr) (o : Options) :
    option_loop w prog ⟨cons, sk, x.char :: cs, r, oa⟩ o =
      option_loop w prog ⟨cons, sk, cs, r, oa⟩ (o.set x) := by
  cases x with
  | e =>
    rw [option_loop_opt w prog _ o 'e' [] ⟨cons, sk, cs, r, oa⟩
      (by simp [Flag.char, getopt, scanChar, strchr])]
    simp [Options.set]
  | f =>
    rw [option_loop_opt w prog _ o 'f' [] ⟨cons, sk, cs, r, oa⟩
      (by simp [Flag.char, getopt, scanChar, strchr])]
    simp [Options.set]
  | a =>
    rw [option_loop_opt w prog _ o 'a' [] ⟨cons, sk, cs, r, oa⟩
      (by simp [Flag.char, getopt, scanChar, strchr])]
    simp [Options.set]
  | o path => simp [Flag.isOutput] at hx

/-- The option loop reads a run of flags without argument inside one element. -/
theorem option_loop_cluster (w : World) (prog : CStr) (g : List Flag)
    (hg : ∀ x ∈ g, x.isOutput = false) (cons sk : List CStr) (t : CStr) (r : List CStr)
    (oa : Option CStr) :
    ∀ o : Options, option_loop w prog ⟨cons, sk, clusterChars g ++ t, r, oa⟩ o =
      option_loop w prog ⟨cons, sk, t, r, oa⟩ (g.foldl Options.set o) := by
  induction g with
  | nil => intro o; rfl
  | cons x g ih =>
    intro o
    have hx := hg x (List.mem_cons_self _ _)
    simp only [clusterChars, List.map_cons, List.cons_append, List.foldl_cons]
    rw [option_loop_nextchar_flag w prog x hx]
    exact ih (fun y hy => hg y (List.mem_cons_of_mem _ hy)) (o.set x)

/-- An option character other than e, f, a, o ends the option loop with the
diagnostic of `getopt` and the usage message. -/
theorem option_loop_bad_char (w : World) (prog : CStr) (c : Char)
    (he : c ≠ 'e') (hf : c ≠ 'f') (ha : c ≠ 'a') (ho : c ≠ 'o')
    (cons sk : List CStr) (t : CStr) (r : List CStr) (oa : Option CStr) (o : Options) :
    option_loop w prog ⟨cons, sk, c :: t, r, oa⟩ o =
      .error { status := 1, stdout := [],
               stderr := invalidOptionMsg prog c ++ PrintUsage prog, file := none } := by
  have hgo : getopt w.posixly_correct prog "efao:".toList ⟨cons, sk, c :: t, r, oa⟩ =
      (some '?', invalidOptionMsg prog c, ⟨cons, sk, t, r, oa⟩) := by
    by_cases hc : c = ':'
    · subst hc; simp [getopt, scanChar, strchr]
    · simp [getopt, scanChar, strchr, Ne.symm he, Ne.symm hf, Ne.symm ha, Ne.symm ho,
        Ne.symm hc]
  rw [option_loop_opt w prog _ o '?' _ _ hgo]
  simp

/-- The option `-o` at the very end of `argv` ends the option loop with the
diagnostic of `getopt` and the usage message. -/
theorem option_loop_missing_arg (w : World) (prog : CStr)
    (cons sk : List CStr) (oa : Option CStr) (o : Options) :
    option_loop w prog ⟨cons, sk, ['o'], [], oa⟩ o =
      .error { status := 1, stdout := [],
               stderr := missingArgMsg prog 'o' ++ PrintUsage prog, file := none } := by
  have hgo : getopt w.posixly_correct prog "efao:".toList ⟨cons, sk, ['o'], [], oa⟩ =
      (some '?', missingArgMsg prog 'o', ⟨cons, sk, [], [], oa⟩) := by
    simp [getopt, scanChar, strchr]
  rw [option_loop_opt w prog _ o '?' _ _ hgo]
  simp

/-- Starting on an option element: `getopt` passes over the operands in front
of it when it permutes, counts the element as consumed and scans it from its
second character. -/
theorem option_loop_enter (w : World) (prog : CStr) (cons ops : List CStr) (nc : CStr)
    (r : List CStr) (oa : Option CStr) (o : Options)
    (hops : ∀ a ∈ ops, NONOPTION_P a = true) (hnc : nc ≠ [])
    (hdd : '-' :: nc ≠ "--".toList) (hp : w.posixly_correct = false ∨ ops = []) :
    option_loop w prog ⟨cons, [], [], ops ++ ('-' :: nc) :: r, oa⟩ o =
      option_loop w prog ⟨cons ++ ['-' :: nc], ops, nc, r, oa⟩ o := by
  apply option_loop_congr
  obtain ⟨x, cs, rfl⟩ : ∃ x cs, nc = x :: cs := by
    cases nc with
    | nil => exact absurd rfl hnc
    | cons x cs => exact ⟨x, cs, rfl⟩
  have hno : NONOPTION_P ('-' :: x :: cs) = false := rfl
  have htake : (ops ++ ('-' :: x :: cs) :: r).takeWhile NONOPTION_P = ops := by
    rw [List.takeWhile_append_of_pos hops]
    simp [List.takeWhile_cons, hno]
  have hdrop : (ops ++ ('-' :: x :: cs) :: r).dropWhile NONOPTION_P = ('-' :: x :: cs) :: r := by
    rw [List.dropWhile_append_of_pos hops]
    simp [List.dropWhile_cons, hno]
  rcases hp with hp | hp
  · simp only [getopt, hp, htake, hdrop, Bool.false_eq_true, if_false, if_neg hdd,
      List.nil_append]
    rfl
  · subst hp
    cases hpc : w.posixly_correct
    · simp only [getopt, List.nil_append, Bool.false_eq_true, if_false, if_neg hdd,
        List.takeWhile_cons, List.dropWhile_cons, hno]
      rfl
    · simp only [getopt, List.nil_append, if_true, if_neg hdd, List.append_nil]
      rfl

/-- With `POSIXLY_CORRECT` set the option loop ends at the first operand and
leaves it and everything behind it as operands. -/
theorem option_loop_posix_stop (w : World) (prog : CStr) (cons : List CStr) (a : CStr)
    (r : List CStr) (oa : Option CStr) (o : Options)
    (hp : w.posixly_correct = true) (ha : NONOPTION_P a = true) :
    option_loop w prog ⟨cons, [], [], a :: r, oa⟩ o = .ok (o, ⟨cons, [], [], a :: r, oa⟩) := by
  apply option_loop_done w prog _ o []
  have hne := NONOPTION_P_ne_dashdash a ha
  simp only [getopt, hp, if_true, if_neg hne, List.append_nil]
  split
  · exact absurd ha (by simp [NONOPTION_P])
  · rfl

/-- A run whose flags and operands are followed by an element with an option
character other than e, f, a, o: the option loop ends on that character, or,
with `POSIXLY_CORRECT` set and an operand in front, `main` ends on the operand
count. -/
theorem main_bad_option (w : World) (prog : CStr) (fl : List Flag) (ops : List CStr)
    (g : List Flag) (c : Char) (tail : CStr) (rest : List CStr)
    (hops : ∀ a ∈ ops, NONOPTION_P a = true) (hg : ∀ x ∈ g, x.isOutput = false)
    (he : c ≠ 'e') (hf : c ≠ 'f') (ha : c ≠ 'a') (ho : c ≠ 'o')
    (hdd : '-' :: (clusterChars g ++ c :: tail) ≠ "--".toList) :
    (w.posixly_correct = false ∨ ops = [] →
      main w prog (flagArgs fl ++ (ops ++ ('-' :: (clusterChars g ++ c :: tail)) :: rest)) =
        { status := 1, stdout := [],
          stderr := invalidOptionMsg prog c ++ PrintUsage prog, file := none }) ∧
    (w.posixly_correct = true → ops ≠ [] →
      main w prog (flagArgs fl ++ (ops ++ ('-' :: (clusterChars g ++ c :: tail)) :: rest)) =
        usageError prog) := by
  obtain ⟨oa1, h⟩ := option_loop_flags w prog fl []
    (ops ++ ('-' :: (clusterChars g ++ c :: tail)) :: rest) [] none Options.init
  constructor
  · intro hp
    simp only [main, GetoptState.init]
    rw [h, option_loop_enter w prog _ ops _ rest oa1 _ hops (by simp) hdd hp,
      option_loop_cluster w prog g hg, option_loop_bad_char w prog c he hf ha ho]
  · intro hp hne
    obtain ⟨a, r, rfl⟩ : ∃ a r, ops = a :: r := by
      cases ops with
      | nil => exact absurd rfl hne
      | cons a r => exact ⟨a, r, rfl⟩
    simp only [main, GetoptState.init]
    rw [h, List.cons_append,
      option_loop_posix_stop w prog _ a _ oa1 _ hp (hops a (List.mem_cons_self _ _))]
    exact main_rest_arity w prog _ _ (by simp [GetoptState.operands])

/-- A run whose flags and operands are followed by a last element that ends in
`o`: the option loop ends on the missing argument, or, with `POSIXLY_CORRECT`
set and an operand in front, `main` ends on the operand count. -/
theorem main_missing_arg (w : World) (prog : CStr) (fl : List Flag) (ops : List CStr)
    (g : List Flag)
    (hops : ∀ a ∈ ops, NONOPTION_P a = true) (hg : ∀ x ∈ g, x.isOutput = false) :
    (w.posixly_correct = false ∨ ops = [] →
      main w prog (flagArgs fl ++ (ops ++ [('-' :: (clusterChars g ++ ['o']))])) =
        { status := 1, stdout := [],
          stderr := missingArgMsg prog 'o' ++ PrintUsage prog, file := none }) ∧
    (w.posixly_correct = true → ops ≠ [] →
      main w prog (flagArgs fl ++ (ops ++ [('-' :: (clusterChars g ++ ['o']))])) =
        usageError prog) := by
  obtain ⟨oa1, h⟩ := option_loop_flags w prog fl []
    (ops ++ [('-' :: (clusterChars g ++ ['o']))]) [] none Options.init
  have hdd : '-' :: (clusterChars g ++ ['o']) ≠ "--".toList := by
    cases g with
    | nil => decide
    | cons x g =>
      have hx := hg x (List.mem_cons_self _ _)
      cases x <;> simp [clusterChars, Flag.char, Flag.isOutput] at hx ⊢
  constructor
  · intro hp
    simp only [main, GetoptState.init]
    rw [h, option_loop_enter w prog _ ops _ [] oa1 _ hops (by simp) hdd hp,
      option_loop_cluster w prog g hg, option_loop_missing_arg]
  · intro hp hne
    obtain ⟨a, r, rfl⟩ : ∃ a r, ops = a :: r := by
      cases ops with
      | nil => exact absurd rfl hne
      | cons a r => exact ⟨a, r, rfl⟩
    simp only [main, GetoptState.init]
    rw [h, List.cons_append,
      option_loop_posix_stop w prog _ a _ oa1 _ hp (hops a (List.mem_cons_self _ _))]
    exact main_rest_arity w prog _ _ (by simp [GetoptState.operands])

/-- XOR with sixteen one bits subtracts a 16-bit value from 65535. -/
theorem xor_65535 (x : Nat) (h : x < 65536) : x ^^^ 65535 = 65535 - x := by
  have h1 := BitVec.toNat_not (x := BitVec.ofNat 16 x)
  rw [BitVec.not_def, BitVec.toNat_xor, BitVec.toNat_allOnes, BitVec.toNat_ofNat,
    Nat.mod_eq_of_lt (by omega), Nat.xor_comm] at h1
  exact h1

/-! ## The shape of every outcome -/

/-- The report starts with the value line. -/
theorem report_value_line (o : Options) (n : Nat) :
    ∃ more, report o n = "Value: ".toList ++ fmt_u n ++ "\n".toList ++ more := ⟨_, rfl⟩

/-- The ways `main` ends once the operand is converted: the report on
standard output, without `-o` or through a path that names it, the report in
the file that opened, or the `perror` line. -/
theorem main_output_cases (w : World) (o : Options) (n : Nat) :
    main_output w o n = { status := 0, stdout := report o n, stderr := [], file := none } ∨
    (∃ p, o.outfile_name = some p ∧ w.fopen_errno p = none ∧ w.names_stdout p = false ∧
      main_output w o n =
        { status := 0, stdout := [], stderr := [], file := some (p, report o n) }) ∨
    (∃ p e, o.outfile_name = some p ∧ w.fopen_errno p = some e ∧
      main_output w o n =
        { status := 1, stdout := [],
          stderr := "Error opening output file".toList ++ ": ".toList ++ e ++ "\n".toList,
          file := none }) := by
  unfold main_output
  cases ho : o.outfile_name with
  | none => exact Or.inl rfl
  | some p =>
    cases hf : w.fopen_errno p with
    | none =>
      cases hn : w.names_stdout p with
      | true => exact Or.inl (by simp [hf, hn])
      | false => exact Or.inr (Or.inl ⟨p, rfl, hf, hn, by simp [hf, hn]⟩)
    | some e => exact Or.inr (Or.inr ⟨p, e, rfl, hf, by simp [hf]⟩)

/-- The rest of `main` after the option loop ends in one of two ways: status 1
with nothing written, or status 0 with the report, headed by the value line of
a valid operand, on standard output or in the one file that was opened. -/
theorem main_rest_shape (w : World) (prog : CStr) (o : Options) (s : GetoptState) :
    ((main_rest w prog o s).status = 1 ∧ (main_rest w prog o s).stdout = [] ∧
      (main_rest w prog o s).file = none) ∨
    ((main_rest w prog o s).status = 0 ∧ ∃ n more, 1 ≤ n ∧ n ≤ 20000 ∧
      (((main_rest w prog o s).file = none ∧
        (main_rest w prog o s).stdout = "Value: ".toList ++ fmt_u n ++ "\n".toList ++ more) ∨
       ((main_rest w prog o s).stdout = [] ∧ ∃ path, (main_rest w prog o s).file =
          some (path, "Value: ".toList ++ fmt_u n ++ "\n".toList ++ more)))) := by
  unfold main_rest
  simp only
  split
  · exact Or.inl ⟨rfl, rfl, rfl⟩
  · unfold main_convert
    simp only
    split
    · exact Or.inl ⟨rfl, rfl, rfl⟩
    · rename_i hc
      simp only [not_or, not_lt, Decidable.not_not, gt_iff_lt] at hc
      obtain ⟨_, hlo, hhi⟩ := hc
      rw [uint16_of_lt _ (by omega)]
      obtain ⟨more, hmore⟩ := report_value_line o
        (strtoul w.abi.ULONG_MAX ((s.argv prog).getD s.optind [])).1
      rcases main_output_cases w o
        (strtoul w.abi.ULONG_MAX ((s.argv prog).getD s.optind [])).1 with
        h | ⟨p, _, _, _, h⟩ | ⟨p, e, _, _, h⟩
      · rw [h]
        exact Or.inr ⟨rfl, _, more, hlo, hhi, Or.inl ⟨rfl, hmore⟩⟩
      · rw [h]
        exact Or.inr ⟨rfl, _, more, hlo, hhi, Or.inr ⟨rfl, p, by rw [hmore]⟩⟩
      · rw [h]
        exact Or.inl ⟨rfl, rfl, rfl⟩

/-! ## Runs with an output file -/

/-- A run with flags on the decimal digits of a valid operand goes on to its
output with those flags and that operand. -/
theorem main_flags_output (w : World) (prog : CStr) (fl : List Flag) (n : Nat)
    (h1 : 1 ≤ n) (h2 : n ≤ 20000) :
    main w prog (flagArgs fl ++ [fmt_u n]) =
      main_output w (fl.foldl Options.set Options.init) n := by
  rw [main_flags_operand w prog fl _ (fmt_u_nonoption n), main_convert_valid w _ n h1 h2]

/-- The output file name after a sequence of flags whose last `-o` has path
`p`. -/
theorem foldl_set_outfile_last (fl1 fl2 : List Flag) (p : CStr)
    (h2 : ∀ x ∈ fl2, x.isOutput = false) (o : Options) :
    ((fl1 ++ Flag.o p :: fl2).foldl Options.set o).outfile_name = some p := by
  rw [List.foldl_append, List.foldl_cons, foldl_set_outfile fl2 h2]
  rfl

/-- The report does not depend on the `-o` flags. -/
theorem report_without_output (fl1 fl2 : List Flag) (p : CStr) (n : Nat) (h : n < 65536) :
    report ((fl1 ++ Flag.o p :: fl2).foldl Options.set Options.init) n =
      report ((fl1 ++ fl2).foldl Options.set Options.init) n := by
  rw [report_flags _ n h, report_flags _ n h]
  simp

/-- A run whose last `-o` has path `p`, on a valid operand: the report goes to
`p` if it opens, which puts it on standard output if `p` names that, and the
`perror` line is printed if `p` does not open. -/
theorem main_flags_output_last (w : World) (prog : CStr) (fl1 fl2 : List Flag) (p : CStr)
    (n : Nat) (h1 : 1 ≤ n) (h2 : n ≤ 20000) (hfl2 : ∀ x ∈ fl2, x.isOutput = false) :
    main w prog (flagArgs (fl1 ++ Flag.o p :: fl2) ++ [fmt_u n]) =
      match w.fopen_errno p with
      | none =>
        if w.names_stdout p then
          { status := 0,
            stdout := report ((fl1 ++ fl2).foldl Options.set Options.init) n,
            stderr := [], file := none }
        else
          { status := 0, stdout := [], stderr := [],
            file := some (p, report ((fl1 ++ fl2).foldl Options.set Options.init) n) }
      | some e =>
        { status := 1, stdout := [],
          stderr := "Error opening output file".toList ++ ": ".toList ++ e ++ "\n".toList,
          file := none } := by
  rw [main_flags_output w prog _ n h1 h2]
  unfold main_output
  rw [foldl_set_outfile_last fl1 fl2 p hfl2, report_without_output fl1 fl2 p n (by omega)]
  simp only
  cases w.fopen_errno p <;> rfl

/-- The output file name after a sequence of flags depends on the name before
it only. -/
theorem foldl_set_outfile_congr (fl : List Flag) : ∀ o1 o2 : Options,
    o1.outfile_name = o2.outfile_name →
      (fl.foldl Options.set o1).outfile_name = (fl.foldl Options.set o2).outfile_name := by
  induction fl with
  | nil => intro o1 o2 h; exact h
  | cons x fl ih =>
    intro o1 o2 h
    simp only [List.foldl_cons]
    apply ih
    cases x <;> simp [Options.set, h]

/-- A flag without argument that is already there changes nothing in the flags
collected. -/
theorem foldl_set_repeat (fl1 fl2 : List Flag) (x : Flag) (hx : x.isOutput = false)
    (hmem : x ∈ fl1 ++ fl2) :
    (fl1 ++ x :: fl2).foldl Options.set Options.init =
      (fl1 ++ fl2).foldl Options.set Options.init := by
  have hm : ∀ y, y ∈ fl1 ++ x :: fl2 ↔ y ∈ fl1 ++ fl2 := by
    intro y
    simp only [List.mem_append, List.mem_cons]
    constructor
    · rintro (h | h | h)
      · exact Or.inl h
      · rw [h]; exact List.mem_append.1 hmem
      · exact Or.inr h
    · rintro (h | h)
      · exact Or.inl h
      · exact Or.inr (Or.inr h)
  obtain ⟨a1, a2, a3⟩ := foldl_set_flags (fl1 ++ x :: fl2) Options.init
  obtain ⟨b1, b2, b3⟩ := foldl_set_flags (fl1 ++ fl2) Options.init
  have ho : ((fl1 ++ x :: fl2).foldl Options.set Options.init).outfile_name =
      ((fl1 ++ fl2).foldl Options.set Options.init).outfile_name := by
    rw [List.foldl_append, List.foldl_append, List.foldl_cons]
    apply foldl_set_outfile_congr
    cases x <;> simp [Options.set, Flag.isOutput] at hx ⊢
  have hext : ∀ o1 o2 : Options, o1.do_even = o2.do_even → o1.do_odd = o2.do_odd →
      o1.do_all = o2.do_all → o1.outfile_name = o2.outfile_name → o1 = o2 := by
    intro o1 o2 h1 h2 h3 h4
    cases o1; cases o2
    simp only at h1 h2 h3 h4
    simp [h1, h2, h3, h4]
  apply hext
  · rw [a1, b1]; simp only [hm]
  · rw [a2, b2]; simp only [hm]
  · rw [a3, b3]; simp only [hm]
  · exact ho

/-! ## The first faulty option of a command line -/

/-- Reading a command line for its first faulty option, element by element. -/
theorem firstBadOption_cons (a : CStr) (rest : List CStr) :
    (a = "--".toList → firstBadOption (a :: rest) = none) ∧
    (a ≠ "--".toList → NONOPTION_P a = true →
      firstBadOption (a :: rest) = firstBadOption rest) ∧
    (a ≠ "--".toList → NONOPTION_P a = false → ∀ c, scanOptionChars (a.drop 1) = .bad c →
      firstBadOption (a :: rest) = some (.invalid c)) ∧
    (a ≠ "--".toList → NONOPTION_P a = false → scanOptionChars (a.drop 1) = .done →
      firstBadOption (a :: rest) = firstBadOption rest) ∧
    (a ≠ "--".toList → NONOPTION_P a = false → scanOptionChars (a.drop 1) = .needsArg →
      rest = [] → firstBadOption (a :: rest) = some .missingArg) ∧
    (a ≠ "--".toList → NONOPTION_P a = false → scanOptionChars (a.drop 1) = .needsArg →
      ∀ b rest1, rest = b :: rest1 → firstBadOption (a :: rest) = firstBadOption rest1) := by
  refine ⟨?_, ?_, ?_, ?_, ?_, ?_⟩
  · intro h
    cases rest <;> rw [firstBadOption, if_pos h]
  · intro h1 h2
    cases rest with
    | nil => simp only [firstBadOption, if_neg h1, if_pos h2]
    | cons b r => rw [firstBadOption, if_neg h1, if_pos h2]
  · intro h1 h2 c h3
    have h2n : ¬ NONOPTION_P a = true := by rw [h2]; decide
    cases rest <;> rw [firstBadOption, if_neg h1, if_neg h2n, h3]
  · intro h1 h2 h3
    have h2n : ¬ NONOPTION_P a = true := by rw [h2]; decide
    cases rest with
    | nil => simp only [firstBadOption, if_neg h1, if_neg h2n, h3]
    | cons b r => rw [firstBadOption, if_neg h1, if_neg h2n, h3]
  · intro h1 h2 h3 h4
    have h2n : ¬ NONOPTION_P a = true := by rw [h2]; decide
    subst h4
    rw [firstBadOption, if_neg h1, if_neg h2n, h3]
  · intro h1 h2 h3 b rest1 h4
    have h2n : ¬ NONOPTION_P a = true := by rw [h2]; decide
    subst h4
    rw [firstBadOption, if_neg h1, if_neg h2n, h3]

/-- When `getopt` permutes, the option loop passes over an operand. -/
theorem option_loop_skip (w : World) (prog : CStr) (cons sk : List CStr) (a : CStr)
    (rest : List CStr) (oa : Option CStr) (o : Options)
    (hp : w.posixly_correct = false) (ha : NONOPTION_P a = true) :
    option_loop w prog ⟨cons, sk, [], a :: rest, oa⟩ o =
      option_loop w prog ⟨cons, sk ++ [a], [], rest, oa⟩ o := by
  apply option_loop_congr
  simp [getopt, hp, List.takeWhile_cons, List.dropWhile_cons, ha]

/-- With `POSIXLY_CORRECT` set the option loop ends at an operand, whatever
was passed over before. -/
theorem option_loop_stop (w : World) (prog : CStr) (cons sk : List CStr) (a : CStr)
    (rest : List CStr) (oa : Option CStr) (o : Options)
    (hp : w.posixly_correct = true) (ha : NONOPTION_P a = true) :
    option_loop w prog ⟨cons, sk, [], a :: rest, oa⟩ o =
      .ok (o, ⟨cons, sk, [], a :: rest, oa⟩) := by
  apply option_loop_done w prog _ o []
  have hne := NONOPTION_P_ne_dashdash a ha
  simp only [getopt, hp, if_true, if_neg hne, List.append_nil]
  split
  · exact absurd ha (by simp [NONOPTION_P])
  · rfl

/-- The option loop starts on an option element, whatever was passed over
before: the element counts as consumed and is scanned from its second
character. -/
theorem option_loop_start (w : World) (prog : CStr) (cons sk : List CStr) (x : Char)
    (cs : CStr) (rest : List CStr) (oa : Option CStr) (o : Options)
    (hdd : '-' :: x :: cs ≠ "--".toList) :
    option_loop w prog ⟨cons, sk, [], ('-' :: x :: cs) :: rest, oa⟩ o =
      option_loop w prog ⟨cons ++ ['-' :: x :: cs], sk, x :: cs, rest, oa⟩ o := by
  apply option_loop_congr
  have hno : NONOPTION_P ('-' :: x :: cs) = false := rfl
  cases hp : w.posixly_correct
  · simp only [getopt, Bool.false_eq_true, if_false, if_neg hdd,
      List.takeWhile_cons, List.dropWhile_cons, hno, List.append_nil]
    rfl
  · simp only [getopt, if_true, if_neg hdd, List.append_nil]
    rfl

/-- The option loop inside an element follows the option characters: it fails
on a character that is not an option and on `-o` with nothing after it, and
otherwise comes to the next element, behind the argument of `-o` if that is an
element of its own. -/
theorem option_loop_scan (w : World) (prog : CStr) (sk : List CStr) (rest : List CStr) :
    ∀ (nc : CStr) (cons : List CStr) (oa : Option CStr) (o : Options),
    (∀ c, scanOptionChars nc = .bad c →
      option_loop w prog ⟨cons, sk, nc, rest, oa⟩ o =
        .error { status := 1, stdout := [],
                 stderr := invalidOptionMsg prog c ++ PrintUsage prog, file := none }) ∧
    (scanOptionChars nc = .done → ∃ cons1 oa1 o1,
      option_loop w prog ⟨cons, sk, nc, rest, oa⟩ o =
        option_loop w prog ⟨cons1, sk, [], rest, oa1⟩ o1) ∧
    (scanOptionChars nc = .needsArg →
      (rest = [] → option_loop w prog ⟨cons, sk, nc, rest, oa⟩ o =
        .error { status := 1, stdout := [],
                 stderr := missingArgMsg prog 'o' ++ PrintUsage prog, file := none }) ∧
      (∀ b rest1, rest = b :: rest1 → ∃ cons1 oa1 o1,
        option_loop w prog ⟨cons, sk, nc, rest, oa⟩ o =
          option_loop w prog ⟨cons1, sk, [], rest1, oa1⟩ o1)) := by
  intro nc
  induction nc with
  | nil =>
    intro cons oa o
    refine ⟨?_, ?_, ?_⟩
    · intro c h; simp [scanOptionChars] at h
    · intro _; exact ⟨cons, oa, o, rfl⟩
    · intro h; simp [scanOptionChars] at h
  | cons c cs ih =>
    intro cons oa o
    by_cases hefa : c = 'e' ∨ c = 'f' ∨ c = 'a'
    · have hs : scanOptionChars (c :: cs) = scanOptionChars cs := by
        simp [scanOptionChars, hefa]
      have hstep : ∃ o2, option_loop w prog ⟨cons, sk, c :: cs, rest, oa⟩ o =
          option_loop w prog ⟨cons, sk, cs, rest, oa⟩ o2 := by
        rcases hefa with h | h | h
        · subst h; exact ⟨_, option_loop_nextchar_flag w prog Flag.e rfl cons sk cs rest oa o⟩
        · subst h; exact ⟨_, option_loop_nextchar_flag w prog Flag.f rfl cons sk cs rest oa o⟩
        · subst h; exact ⟨_, option_loop_nextchar_flag w prog Flag.a rfl cons sk cs rest oa o⟩
      obtain ⟨o2, hstep⟩ := hstep
      rw [hs, hstep]
      exact ih cons oa o2
    · have he : c ≠ 'e' := fun h => hefa (Or.inl h)
      have hf : c ≠ 'f' := fun h => hefa (Or.inr (Or.inl h))
      have ha : c ≠ 'a' := fun h => hefa (Or.inr (Or.inr h))
      by_cases ho : c = 'o'
      · subst ho
        by_cases hcs : cs = []
        · subst hcs
          have hs : scanOptionChars ['o'] = .needsArg := by decide
          refine ⟨?_, ?_, ?_⟩
          · intro c h; rw [hs] at h; cases h
          · intro h; rw [hs] at h; cases h
          · intro _
            refine ⟨?_, ?_⟩
            · intro hr; subst hr; exact option_loop_missing_arg w prog cons sk oa o
            · intro b rest1 hr
              subst hr
              refine ⟨cons ++ [b], some b, { o with outfile_name := some b }, ?_⟩
              rw [option_loop_opt w prog _ o 'o' [] ⟨cons ++ [b], sk, [], rest1, some b⟩
                (by simp [getopt, scanChar, strchr])]
              simp
        · have hs : scanOptionChars ('o' :: cs) = .done := by
            simp [scanOptionChars, hcs]
          refine ⟨?_, ?_, ?_⟩
          · intro c h; rw [hs] at h; cases h
          · intro _
            refine ⟨cons, some cs, { o with outfile_name := some cs }, ?_⟩
            rw [option_loop_opt w prog _ o 'o' [] ⟨cons, sk, [], rest, some cs⟩
              (by simp [getopt, scanChar, strchr, hcs])]
            simp
          · intro h; rw [hs] at h; cases h
      · have hs : scanOptionChars (c :: cs) = .bad c := by
          simp [scanOptionChars, hefa, ho]
        refine ⟨?_, ?_, ?_⟩
        · intro c1 h
          rw [hs] at h
          cases h
          exact option_loop_bad_char w prog c he hf ha ho cons sk cs rest oa o
        · intro h; rw [hs] at h; cases h
        · intro h; rw [hs] at h; cases h

/-- A command line with a faulty option has at least one element. -/
theorem firstBadOption_ne_nil (args : List CStr) (k : BadOption)
    (h : firstBadOption args = some k) : args ≠ [] := by
  intro hn; subst hn; simp [firstBadOption] at h

/-- An element that is not an operand starts with `-` and has a second
character. -/
theorem option_element_shape (a : CStr) (h : NONOPTION_P a = false) :
    ∃ x cs, a = '-' :: x :: cs := by
  unfold NONOPTION_P at h
  split at h
  · rename_i x cs; exact ⟨x, cs, rfl⟩
  · exact absurd h (by decide)

/-- On a command line with a faulty option the option loop fails on that option
with the diagnostic of `getopt` and the usage message, unless
`POSIXLY_CORRECT` is set and an operand stands before the option: then the
loop ends at the operand and leaves two operands or more. -/
theorem option_loop_first_bad (w : World) (prog : CStr) :
    ∀ (n : Nat) (args : List CStr), args.length ≤ n → ∀ (k : BadOption),
      firstBadOption args = some k →
      ∀ (cons sk : List CStr) (oa : Option CStr) (o : Options),
        option_loop w prog ⟨cons, sk, [], args, oa⟩ o =
          .error { status := 1, stdout := [],
                   stderr := k.diag prog ++ PrintUsage prog, file := none } ∨
        (w.posixly_correct = true ∧ ∃ o1 s1,
          option_loop w prog ⟨cons, sk, [], args, oa⟩ o = .ok (o1, s1) ∧
            2 ≤ s1.operands.length) := by
  intro n
  induction n with
  | zero =>
    intro args hlen k hk
    have := firstBadOption_ne_nil args k hk
    cases args with
    | nil => exact absurd rfl this
    | cons a r => simp at hlen
  | succ n ih =>
    intro args hlen k hk cons sk oa o
    cases args with
    | nil => exact absurd rfl (firstBadOption_ne_nil [] k hk)
    | cons a rest =>
      have hrest : rest.length ≤ n := by simpa using hlen
      obtain ⟨f1, f2, f3, f4, f5, f6⟩ := firstBadOption_cons a rest
      by_cases hdd : a = "--".toList
      · rw [f1 hdd] at hk; cases hk
      · cases hno : NONOPTION_P a with
        | true =>
          rw [f2 hdd hno] at hk
          cases hp : w.posixly_correct with
          | false =>
            rw [option_loop_skip w prog cons sk a rest oa o hp hno]
            rcases ih rest hrest k hk cons (sk ++ [a]) oa o with h | ⟨h, _⟩
            · exact Or.inl h
            · rw [hp] at h; cases h
          | true =>
            refine Or.inr ⟨rfl, o, _, option_loop_stop w prog cons sk a rest oa o hp hno, ?_⟩
            have hne := firstBadOption_ne_nil rest k hk
            cases rest with
            | nil => exact absurd rfl hne
            | cons b r => simp [GetoptState.operands]; omega
        | false =>
          obtain ⟨x, cs, rfl⟩ := option_element_shape a hno
          rw [option_loop_start w prog cons sk x cs rest oa o hdd]
          obtain ⟨s1, s2, s3⟩ := option_loop_scan w prog sk rest (x :: cs)
            (cons ++ ['-' :: x :: cs]) oa o
          cases hsc : scanOptionChars (x :: cs) with
          | bad c =>
            rw [f3 hdd hno c hsc] at hk
            cases hk
            exact Or.inl (s1 c hsc)
          | done =>
            rw [f4 hdd hno hsc] at hk
            obtain ⟨cons1, oa1, o1, h⟩ := s2 hsc
            rw [h]
            exact ih rest hrest k hk cons1 sk oa1 o1
          | needsArg =>
            cases rest with
            | nil =>
              rw [f5 hdd hno hsc rfl] at hk
              cases hk
              exact Or.inl ((s3 hsc).1 rfl)
            | cons b rest1 =>
              rw [f6 hdd hno hsc b rest1 rfl] at hk
              obtain ⟨cons1, oa1, o1, h⟩ := (s3 hsc).2 b rest1 rfl
              rw [h]
              exact ih rest1 (by simp at hrest; omega) k hk cons1 sk oa1 o1

/-- A run with a faulty option exits through one of the two usage errors. -/
theorem main_first_bad (w : World) (prog : CStr) (args : List CStr) (k : BadOption)
    (hk : firstBadOption args = some k) :
    main w prog args =
      { status := 1, stdout := [], stderr := k.diag prog ++ PrintUsage prog, file := none } ∨
    (w.posixly_correct = true ∧ main w prog args = usageError prog) := by
  rcases option_loop_first_bad w prog args.length args (le_refl _) k hk [] [] none Options.init
    with h | ⟨hp, o1, s1, h, hlen⟩
  · left
    simp only [main, GetoptState.init, h]
  · right
    refine ⟨hp, ?_⟩
    simp only [main, GetoptState.init, h]
    exact main_rest_arity w prog o1 s1 (by omega)

/-! ## The properties of the program -/

/-- C1: for every n with 1 ≤ n ≤ 20000, the run whose only argument is the
decimal numeral of n exits with status 0 and writes exactly `Value: n` and a
newline to standard output, nothing to the error stream and no file. -/
theorem value_line_only (w : World) (prog : CStr) (n : Nat) (h1 : 1 ≤ n) (h2 : n ≤ 20000) :
    main w prog [fmt_u n] =
      { status := 0, stdout := "Value: ".toList ++ fmt_u n ++ "\n".toList,
        stderr := [], file := none } := by
  have h := main_flags_valid w prog [] n h1 h2 (by simp)
  rw [report_flags [] n (by omega)] at h
  simpa [flagArgs] using h

/-- The run `prog 5` prints `Value: 5`. -/
theorem value_line_only_witness :
    main lp64 "prog".toList ["5".toList] =
      { status := 0, stdout := "Value: 5\n".toList, stderr := [], file := none } :=
  value_line_only lp64 "prog".toList 5 (by decide) (by decide)

/-- C2: for every valid n and every sequence of the flags -e, -f, -a that
contains -e, the run exits with status 0 and the line after the `Value:` line
is `Even bits flipped:` followed by the decimal numeral of n XOR 0x5555, the
value the program computes in 16 bits, a number that is at most 65535; the odd
and all lines follow if their flags occur. -/
theorem even_line_value (w : World) (prog : CStr) (fl : List Flag) (n : Nat)
    (h1 : 1 ≤ n) (h2 : n ≤ 20000) (hfl : ∀ x ∈ fl, x.isOutput = false) (he : Flag.e ∈ fl) :
    main w prog (flagArgs fl ++ [fmt_u n]) =
      { status := 0,
        stdout := "Value: ".toList ++ fmt_u n ++ "\n".toList ++
          ("Even bits flipped: ".toList ++ fmt_u (n ^^^ 0x5555) ++ "\n".toList) ++
          (if Flag.f ∈ fl then
            "Odd bits flipped: ".toList ++ fmt_u (flipped_odd n) ++ "\n".toList else []) ++
          (if Flag.a ∈ fl then
            "All bits flipped: ".toList ++ fmt_u (flipped_all n) ++ "\n".toList else []),
        stderr := [], file := none } ∧
    flipped_even n = n ^^^ 0x5555 ∧ 0 ≤ n ^^^ 0x5555 ∧ n ^^^ 0x5555 ≤ 65535 := by
  have hlt := xor_lt_65536 n 0x5555 (by omega) (by decide)
  refine ⟨?_, uint16_of_lt _ hlt, Nat.zero_le _, by omega⟩
  rw [main_flags_valid w prog fl n h1 h2 hfl, report_flags fl n (by omega), if_pos he]
  simp only [flipped_odd, flipped_all,
    uint16_of_lt _ (xor_lt_65536 n 0xAAAA (by omega) (by decide)),
    uint16_of_lt _ (xor_lt_65536 n 0xFFFF (by omega) (by decide))]

/-- The run `prog -f -e 1000` prints the even flip of 1000 after the value. -/
theorem even_line_value_witness :
    main lp64 "prog".toList ["-f".toList, "-e".toList, "1000".toList] =
      { status := 0,
        stdout := "Value: ".toList ++ fmt_u 1000 ++ "\n".toList ++
          ("Even bits flipped: ".toList ++ fmt_u (1000 ^^^ 0x5555) ++ "\n".toList) ++
          (if Flag.f ∈ [Flag.f, Flag.e] then
            "Odd bits flipped: ".toList ++ fmt_u (flipped_odd 1000) ++ "\n".toList else []) ++
          (if Flag.a ∈ [Flag.f, Flag.e] then
            "All bits flipped: ".toList ++ fmt_u (flipped_all 1000) ++ "\n".toList else []),
        stderr := [], file := none } ∧
    flipped_even 1000 = 1000 ^^^ 0x5555 ∧ 0 ≤ 1000 ^^^ 0x5555 ∧ 1000 ^^^ 0x5555 ≤ 65535 :=
  even_line_value lp64 "prog".toList [Flag.f, Flag.e] 1000 (by decide) (by decide)
    (by decide) (by decide)

/-- C3, as the code has it: the run `prog -e 5` writes `Value: 5` and
`Even bits flipped: 21840` to standard output and exits with status 0; 5 XOR
0x5555 is 21840. -/
theorem even_flip_of_five (w : World) (prog : CStr) :
    main w prog ["-e".toList, "5".toList] =
      { status := 0, stdout := "Value: 5\nEven bits flipped: 21840\n".toList,
        stderr := [], file := none } ∧
    5 ^^^ 0x5555 = 21840 := by
  refine ⟨?_, by decide⟩
  have h := main_flags_valid w prog [Flag.e] 5 (by decide) (by decide) (by decide)
  rw [report_flags [Flag.e] 5 (by decide)] at h
  exact h

/-- C3 as stated fails: the run `prog -e 5` does not write
`Even bits flipped: 21844`. -/
theorem even_flip_of_five_not_21844 :
    (main lp64 "prog".toList ["-e".toList, "5".toList]).stdout ≠
      "Value: 5\nEven bits flipped: 21844\n".toList := by
  have h := main_flags_valid lp64 "prog".toList [Flag.e] 5 (by decide) (by decide) (by decide)
  rw [report_flags [Flag.e] 5 (by decide)] at h
  have h' : (main lp64 "prog".toList ["-e".toList, "5".toList]).stdout =
      "Value: 5\nEven bits flipped: 21840\n".toList := congrArg Outcome.stdout h
  rw [h']
  decide

/-- C4: for every valid n and every sequence of the flags -e, -f, -a, a run
with -f writes the line `Odd bits flipped:` with n XOR 0xAAAA after the value
line and the even line if there is one, a run with -a ends its output with the
line `All bits flipped:` with n XOR 0xFFFF, and the run `prog -f -a 20000`
writes the value line and these two lines, with 58506 and 45535. -/
theorem odd_and_all_lines (w : World) (prog : CStr) (fl : List Flag) (n : Nat)
    (h1 : 1 ≤ n) (h2 : n ≤ 20000) (hfl : ∀ x ∈ fl, x.isOutput = false) :
    (Flag.f ∈ fl →
      (main w prog (flagArgs fl ++ [fmt_u n])).stdout =
        "Value: ".toList ++ fmt_u n ++ "\n".toList ++
          (if Flag.e ∈ fl then
            "Even bits flipped: ".toList ++ fmt_u (flipped_even n) ++ "\n".toList else []) ++
          ("Odd bits flipped: ".toList ++ fmt_u (n ^^^ 0xAAAA) ++ "\n".toList) ++
          (if Flag.a ∈ fl then
            "All bits flipped: ".toList ++ fmt_u (flipped_all n) ++ "\n".toList else [])) ∧
    (Flag.a ∈ fl →
      (main w prog (flagArgs fl ++ [fmt_u n])).stdout =
        "Value: ".toList ++ fmt_u n ++ "\n".toList ++
          (if Flag.e ∈ fl then
            "Even bits flipped: ".toList ++ fmt_u (flipped_even n) ++ "\n".toList else []) ++
          (if Flag.f ∈ fl then
            "Odd bits flipped: ".toList ++ fmt_u (flipped_odd n) ++ "\n".toList else []) ++
          ("All bits flipped: ".toList ++ fmt_u (n ^^^ 0xFFFF) ++ "\n".toList)) ∧
    main w prog ["-f".toList, "-a".toList, "20000".toList] =
      { status := 0,
        stdout := "Value: 20000\nOdd bits flipped: 58506\nAll bits flipped: 45535\n".toList,
        stderr := [], file := none } ∧
    20000 ^^^ 0xAAAA = 58506 ∧ 20000 ^^^ 0xFFFF = 45535 := by
  have h := main_flags_valid w prog fl n h1 h2 hfl
  rw [report_flags fl n (by omega)] at h
  have hE := uint16_of_lt _ (xor_lt_65536 n 0x5555 (by omega) (by decide))
  have hO := uint16_of_lt _ (xor_lt_65536 n 0xAAAA (by omega) (by decide))
  have hA := uint16_of_lt _ (xor_lt_65536 n 0xFFFF (by omega) (by decide))
  refine ⟨?_, ?_, ?_, by decide, by decide⟩
  · intro hf
    rw [h, if_pos hf]
    simp only [flipped_even, flipped_all, hE, hA]
  · intro ha
    rw [h, if_pos ha]
    simp only [flipped_even, flipped_odd, hE, hO]
  · have h20 := main_flags_valid w prog [Flag.f, Flag.a] 20000 (by decide) (by decide)
      (by decide)
    rw [report_flags [Flag.f, Flag.a] 20000 (by decide)] at h20
    exact h20

/-- The runs `prog -a -f 7` and `prog -f -a 20000`. -/
theorem odd_and_all_lines_witness :
    (Flag.f ∈ [Flag.a, Flag.f] →
      (main lp64 "prog".toList ["-a".toList, "-f".toList, "7".toList]).stdout =
        "Value: ".toList ++ fmt_u 7 ++ "\n".toList ++
          (if Flag.e ∈ [Flag.a, Flag.f] then
            "Even bits flipped: ".toList ++ fmt_u (flipped_even 7) ++ "\n".toList else []) ++
          ("Odd bits flipped: ".toList ++ fmt_u (7 ^^^ 0xAAAA) ++ "\n".toList) ++
          (if Flag.a ∈ [Flag.a, Flag.f] then
            "All bits flipped: ".toList ++ fmt_u (flipped_all 7) ++ "\n".toList else [])) ∧
    (Flag.a ∈ [Flag.a, Flag.f] →
      (main lp64 "prog".toList ["-a".toList, "-f".toList, "7".toList]).stdout =
        "Value: ".toList ++ fmt_u 7 ++ "\n".toList ++
          (if Flag.e ∈ [Flag.a, Flag.f] then
            "Even bits flipped: ".toList ++ fmt_u (flipped_even 7) ++ "\n".toList else []) ++
          (if Flag.f ∈ [Flag.a, Flag.f] then
            "Odd bits flipped: ".toList ++ fmt_u (flipped_odd 7) ++ "\n".toList else []) ++
          ("All bits flipped: ".toList ++ fmt_u (7 ^^^ 0xFFFF) ++ "\n".toList)) ∧
    main lp64 "prog".toList ["-f".toList, "-a".toList, "20000".toList] =
      { status := 0,
        stdout := "Value: 20000\nOdd bits flipped: 58506\nAll bits flipped: 45535\n".toList,
        stderr := [], file := none } ∧
    20000 ^^^ 0xAAAA = 58506 ∧ 20000 ^^^ 0xFFFF = 45535 :=
  odd_and_all_lines lp64 "prog".toList [Flag.a, Flag.f] 7 (by decide) (by decide) (by decide)

/-- C5: for every valid n and every sequence of the flags -e, -f, -a, in any
order and with repetitions, the run exits with status 0 and its output is
the value line followed by the even line if -e occurs, then the odd line if -f
occurs, then the all line if -a occurs, each at most once; two sequences with
the same flags give the same outcome. -/
theorem lines_in_fixed_order (w : World) (prog : CStr) (fl : List Flag) (n : Nat)
    (h1 : 1 ≤ n) (h2 : n ≤ 20000) (hfl : ∀ x ∈ fl, x.isOutput = false) :
    main w prog (flagArgs fl ++ [fmt_u n]) =
      { status := 0,
        stdout := "Value: ".toList ++ fmt_u n ++ "\n".toList ++
          (if Flag.e ∈ fl then
            "Even bits flipped: ".toList ++ fmt_u (n ^^^ 0x5555) ++ "\n".toList else []) ++
          (if Flag.f ∈ fl then
            "Odd bits flipped: ".toList ++ fmt_u (n ^^^ 0xAAAA) ++ "\n".toList else []) ++
          (if Flag.a ∈ fl then
            "All bits flipped: ".toList ++ fmt_u (n ^^^ 0xFFFF) ++ "\n".toList else []),
        stderr := [], file := none } ∧
    ∀ fl2 : List Flag, (∀ x, x ∈ fl2 ↔ x ∈ fl) →
      main w prog (flagArgs fl2 ++ [fmt_u n]) = main w prog (flagArgs fl ++ [fmt_u n]) := by
  have h := main_flags_valid w prog fl n h1 h2 hfl
  rw [report_flags fl n (by omega)] at h
  refine ⟨h, ?_⟩
  intro fl2 hmem
  have hfl2 : ∀ x ∈ fl2, x.isOutput = false := fun x hx => hfl x ((hmem x).1 hx)
  rw [h, main_flags_valid w prog fl2 n h1 h2 hfl2, report_flags fl2 n (by omega)]
  simp only [hmem]

/-- The run `prog -a -e -a 300`. -/
theorem lines_in_fixed_order_witness :
    main lp64 "prog".toList (flagArgs [Flag.a, Flag.e, Flag.a] ++ [fmt_u 300]) =
      { status := 0,
        stdout := "Value: ".toList ++ fmt_u 300 ++ "\n".toList ++
          (if Flag.e ∈ [Flag.a, Flag.e, Flag.a] then
            "Even bits flipped: ".toList ++ fmt_u (300 ^^^ 0x5555) ++ "\n".toList else []) ++
          (if Flag.f ∈ [Flag.a, Flag.e, Flag.a] then
            "Odd bits flipped: ".toList ++ fmt_u (300 ^^^ 0xAAAA) ++ "\n".toList else []) ++
          (if Flag.a ∈ [Flag.a, Flag.e, Flag.a] then
            "All bits flipped: ".toList ++ fmt_u (300 ^^^ 0xFFFF) ++ "\n".toList else []),
        stderr := [], file := none } ∧
    ∀ fl2 : List Flag, (∀ x, x ∈ fl2 ↔ x ∈ [Flag.a, Flag.e, Flag.a]) →
      main lp64 "prog".toList (flagArgs fl2 ++ [fmt_u 300]) =
        main lp64 "prog".toList (flagArgs [Flag.a, Flag.e, Flag.a] ++ [fmt_u 300]) :=
  lines_in_fixed_order lp64 "prog".toList [Flag.a, Flag.e, Flag.a] 300 (by decide) (by decide)
    (by decide)

/-- C6: for every valid n, the run with -e alone writes the value line and an
even line, the run with -f alone writes the value line and an odd line, and the
runs with -e -f and with -f -e both write the value line, that same even line
and that same odd line; the even value is n XOR 0x5555 and the odd value is
n XOR 0xAAAA, each computed from n, in either order. -/
theorem flips_do_not_chain (w : World) (prog : CStr) (n : Nat) (h1 : 1 ≤ n) (h2 : n ≤ 20000) :
    ∃ value even odd : CStr,
      value = "Value: ".toList ++ fmt_u n ++ "\n".toList ∧
      even = "Even bits flipped: ".toList ++ fmt_u (flipped_even n) ++ "\n".toList ∧
      odd = "Odd bits flipped: ".toList ++ fmt_u (flipped_odd n) ++ "\n".toList ∧
      main w prog ["-e".toList, fmt_u n] =
        { status := 0, stdout := value ++ even, stderr := [], file := none } ∧
      main w prog ["-f".toList, fmt_u n] =
        { status := 0, stdout := value ++ odd, stderr := [], file := none } ∧
      main w prog ["-e".toList, "-f".toList, fmt_u n] =
        { status := 0, stdout := value ++ even ++ odd, stderr := [], file := none } ∧
      main w prog ["-f".toList, "-e".toList, fmt_u n] =
        { status := 0, stdout := value ++ even ++ odd, stderr := [], file := none } ∧
      flipped_even n = n ^^^ 0x5555 ∧ flipped_odd n = n ^^^ 0xAAAA := by
  refine ⟨_, _, _, rfl, rfl, rfl, ?_, ?_, ?_, ?_,
    uint16_of_lt _ (xor_lt_65536 n 0x5555 (by omega) (by decide)),
    uint16_of_lt _ (xor_lt_65536 n 0xAAAA (by omega) (by decide))⟩
  · have h := main_flags_valid w prog [Flag.e] n h1 h2 (by decide)
    simpa [flagArgs, Flag.words, report, Options.set, Options.init] using h
  · have h := main_flags_valid w prog [Flag.f] n h1 h2 (by decide)
    simpa [flagArgs, Flag.words, report, Options.set, Options.init] using h
  · have h := main_flags_valid w prog [Flag.e, Flag.f] n h1 h2 (by decide)
    simpa [flagArgs, Flag.words, report, Options.set, Options.init] using h
  · have h := main_flags_valid w prog [Flag.f, Flag.e] n h1 h2 (by decide)
    simpa [flagArgs, Flag.words, report, Options.set, Options.init] using h

/-- The runs on 12345 with -e, with -f, with -e -f and with -f -e. -/
theorem flips_do_not_chain_witness :
    ∃ value even odd : CStr,
      value = "Value: ".toList ++ fmt_u 12345 ++ "\n".toList ∧
      even = "Even bits flipped: ".toList ++ fmt_u (flipped_even 12345) ++ "\n".toList ∧
      odd = "Odd bits flipped: ".toList ++ fmt_u (flipped_odd 12345) ++ "\n".toList ∧
      main lp64 "prog".toList ["-e".toList, fmt_u 12345] =
        { status := 0, stdout := value ++ even, stderr := [], file := none } ∧
      main lp64 "prog".toList ["-f".toList, fmt_u 12345] =
        { status := 0, stdout := value ++ odd, stderr := [], file := none } ∧
      main lp64 "prog".toList ["-e".toList, "-f".toList, fmt_u 12345] =
        { status := 0, stdout := value ++ even ++ odd, stderr := [], file := none } ∧
      main lp64 "prog".toList ["-f".toList, "-e".toList, fmt_u 12345] =
        { status := 0, stdout := value ++ even ++ odd, stderr := [], file := none } ∧
      flipped_even 12345 = 12345 ^^^ 0x5555 ∧ flipped_odd 12345 = 12345 ^^^ 0xAAAA :=
  flips_do_not_chain lp64 "prog".toList 12345 (by decide) (by decide)

/-- C7: for every 16-bit value x, flipping twice with the same mask gives x
back, for each of the three flips of the program. -/
theorem flip_involutive (x : Nat) (h : x < 65536) :
    flipped_even (flipped_even x) = x ∧ flipped_odd (flipped_odd x) = x ∧
      flipped_all (flipped_all x) = x := by
  have key : ∀ m, m < 65536 → uint16 (uint16 (x ^^^ m) ^^^ m) = x := by
    intro m hm
    rw [uint16_of_lt _ (xor_lt_65536 x m h hm), Nat.xor_assoc, Nat.xor_self, Nat.xor_zero,
      uint16_of_lt x h]
  exact ⟨key 0x5555 (by decide), key 0xAAAA (by decide), key 0xFFFF (by decide)⟩

/-- Flipping 20000 twice. -/
theorem flip_involutive_witness :
    flipped_even (flipped_even 20000) = 20000 ∧ flipped_odd (flipped_odd 20000) = 20000 ∧
      flipped_all (flipped_all 20000) = 20000 :=
  flip_involutive 20000 (by decide)

/-- C8, the failing inputs: the run `prog -- -18446744073709551615` on a 64-bit
system and the run `prog -- -4294967295` on a 32-bit system, whose operand is
a negative number, exit with status 0 and write `Value: 1`. -/
theorem negative_operand_accepted :
    main lp64 "prog".toList ["--".toList, "-18446744073709551615".toList] =
      { status := 0, stdout := "Value: 1\n".toList, stderr := [], file := none } ∧
    main ilp32 "prog".toList ["--".toList, "-4294967295".toList] =
      { status := 0, stdout := "Value: 1\n".toList, stderr := [], file := none } := by
  have h := main_flags_dashdash lp64 "prog".toList [] "-18446744073709551615".toList
  rw [show flagArgs [] ++ ["--".toList, "-18446744073709551615".toList] =
    ["--".toList, "-18446744073709551615".toList] from rfl] at h
  have h32 := main_flags_dashdash ilp32 "prog".toList [] "-4294967295".toList
  rw [show flagArgs [] ++ ["--".toList, "-4294967295".toList] =
    ["--".toList, "-4294967295".toList] from rfl] at h32
  rw [h, h32]
  exact ⟨by decide, by decide⟩

/-- C9 as stated fails: the run `prog +5` exits with status 0 although `+5`
is not an unsigned numeral. -/
theorem plus_sign_accepted :
    (main lp64 "prog".toList ["+5".toList]).status = 0 ∧
      unsignedInRange "+5".toList = false := by
  refine ⟨?_, by decide⟩
  have h := main_flags_operand lp64 "prog".toList [] "+5".toList (by decide)
  rw [show flagArgs [] ++ ["+5".toList] = ["+5".toList] from rfl] at h
  rw [h]
  decide

/-- C9, amended: for every string without a minus sign in front, given as the
operand after any flags (directly or behind `--`) and with every `-o` path
opening, the run exits with status 0 if and only if the string, after its
leading white space and one optional plus sign, is a non-empty run of decimal
digits to its end whose value lies in [1, 20000]; otherwise the run is the
range error with status 1 and no output. -/
theorem operand_accepted_iff (w : World) (prog : CStr) (fl : List Flag) (s : CStr)
    (args : List CStr)
    (hargs : args = flagArgs fl ++ [s] ∨ args = flagArgs fl ++ ["--".toList, s])
    (hopen : ∀ p, Flag.o p ∈ fl → w.fopen_errno p = none)
    (hs : hasMinusSign s = false) :
    ((main w prog args).status = 0 ↔ unsignedInRange (stripBlanksAndPlus s) = true) ∧
    (unsignedInRange (stripBlanksAndPlus s) = false →
      main w prog args =
        { status := 1, stdout := [],
          stderr := "Error: intval must be integer in [1, 20000]\n".toList, file := none }) := by
  have hmain : main w prog args = main_convert w (fl.foldl Options.set Options.init) s := by
    rcases hargs with h | h
    · rw [h]; exact main_flags_operand w prog fl s (nonoption_of_no_minus s hs)
    · rw [h]; exact main_flags_dashdash w prog fl s
  have hrej : unsignedInRange (stripBlanksAndPlus s) = false → main w prog args = rangeError :=
    fun ha => by rw [hmain, main_convert_reject w _ s hs ha]
  refine ⟨⟨?_, ?_⟩, hrej⟩
  · intro h0
    cases ha : unsignedInRange (stripBlanksAndPlus s)
    · rw [hrej ha] at h0
      exact absurd h0 (by decide)
    · rfl
  · intro ha
    rw [hmain, main_convert_accept w _ s hs ha]
    apply main_output_status
    intro p hp
    rcases foldl_set_outfile_mem fl Options.init p hp with h | h
    · exact hopen p h
    · exact absurd h (by simp [Options.init])

/-- The runs `prog -a -- " +17"`: white space and a plus sign before 17. -/
theorem operand_accepted_iff_witness :
    ((main lp64 "prog".toList ["-a".toList, "--".toList, " +17".toList]).status = 0 ↔
      unsignedInRange (stripBlanksAndPlus " +17".toList) = true) ∧
    (unsignedInRange (stripBlanksAndPlus " +17".toList) = false →
      main lp64 "prog".toList ["-a".toList, "--".toList, " +17".toList] =
        { status := 1, stdout := [],
          stderr := "Error: intval must be integer in [1, 20000]\n".toList, file := none }) :=
  operand_accepted_iff lp64 "prog".toList [Flag.a] " +17".toList
    ["-a".toList, "--".toList, " +17".toList] (Or.inr rfl) (fun _ _ => rfl) (by decide)

/-- C10: whenever the option loop ends with `getopt` returning -1 and the
operands left behind `optind` are none or two or more, the run exits with
status 1, its error stream is the line `Error: missing or too many arguments`
followed by the usage message, the six lines that start with `Usage:` and the
program name, and nothing is written to standard output or to any file.  This
is so for every sequence of the flags -e, -f, -a, -o path followed by no
operand or by two or more, directly or behind `--`. -/
theorem wrong_operand_count (w : World) (prog : CStr) :
    ∃ usage : CStr,
      usage = "Usage: ".toList ++ prog ++ " [-e] [-f] [-a] [-o outputfile] intval\n".toList ++
        "  intval: integer between 1 and 20000 inclusive\n".toList ++
        "  -e: flip even bits (bit positions 0, 2, 4, ...)\n".toList ++
        "  -f: flip odd bits (bit positions 1, 3, 5, ...)\n".toList ++
        "  -a: flip all bits\n".toList ++
        "  -o file: write output to file instead of screen\n".toList ∧
      (∀ (args : List CStr) (o : Options) (s : GetoptState),
        option_loop w prog (GetoptState.init args) Options.init = .ok (o, s) →
        (s.operands.length = 0 ∨ 2 ≤ s.operands.length) →
        main w prog args =
          { status := 1, stdout := [],
            stderr := "Error: missing or too many arguments\n".toList ++ usage,
            file := none }) ∧
      (∀ (fl : List Flag) (ops : List CStr), (∀ a ∈ ops, NONOPTION_P a = true) →
        (ops.length = 0 ∨ 2 ≤ ops.length) →
        main w prog (flagArgs fl ++ ops) =
          { status := 1, stdout := [],
            stderr := "Error: missing or too many arguments\n".toList ++ usage,
            file := none }) ∧
      (∀ (fl : List Flag) (ops : List CStr), (ops.length = 0 ∨ 2 ≤ ops.length) →
        main w prog (flagArgs fl ++ "--".toList :: ops) =
          { status := 1, stdout := [],
            stderr := "Error: missing or too many arguments\n".toList ++ usage,
            file := none }) := by
  have key : ∀ (args : List CStr) (o : Options) (s : GetoptState),
      option_loop w prog (GetoptState.init args) Options.init = .ok (o, s) →
      (s.operands.length = 0 ∨ 2 ≤ s.operands.length) →
      main w prog args = usageError prog := by
    intro args o s hloop hcount
    simp only [main, hloop]
    exact main_rest_arity w prog o s (by omega)
  refine ⟨PrintUsage prog, rfl, key, ?_, ?_⟩
  · intro fl ops hops hcount
    obtain ⟨s1, h1, h2⟩ := option_loop_flags_operands w prog fl ops hops
    exact key _ _ s1 h2 (by rw [h1]; exact hcount)
  · intro fl ops hcount
    obtain ⟨s1, h1, h2⟩ := option_loop_flags_dashdash w prog fl ops
    exact key _ _ s1 h2 (by rw [h1]; exact hcount)

/-- The runs `prog -e -o out` (no operand), `prog -f 5 6` (two operands) and
`prog -a -- -e 7` (two operands behind `--`). -/
theorem wrong_operand_count_witness :
    main lp64 "prog".toList ["-e".toList, "-o".toList, "out".toList] =
      { status := 1, stdout := [],
        stderr := "Error: missing or too many arguments\n".toList ++
          "Usage: prog [-e] [-f] [-a] [-o outputfile] intval\n".toList ++
          "  intval: integer between 1 and 20000 inclusive\n".toList ++
          "  -e: flip even bits (bit positions 0, 2, 4, ...)\n".toList ++
          "  -f: flip odd bits (bit positions 1, 3, 5, ...)\n".toList ++
          "  -a: flip all bits\n".toList ++
          "  -o file: write output to file instead of screen\n".toList,
        file := none } ∧
    main lp64 "prog".toList ["-f".toList, "5".toList, "6".toList] =
      { status := 1, stdout := [],
        stderr := "Error: missing or too many arguments\n".toList ++
          "Usage: prog [-e] [-f] [-a] [-o outputfile] intval\n".toList ++
          "  intval: integer between 1 and 20000 inclusive\n".toList ++
          "  -e: flip even bits (bit positions 0, 2, 4, ...)\n".toList ++
          "  -f: flip odd bits (bit positions 1, 3, 5, ...)\n".toList ++
          "  -a: flip all bits\n".toList ++
          "  -o file: write output to file instead of screen\n".toList,
        file := none } ∧
    main lp64 "prog".toList ["-a".toList, "--".toList, "-e".toList, "7".toList] =
      { status := 1, stdout := [],
        stderr := "Error: missing or too many arguments\n".toList ++
          "Usage: prog [-e] [-f] [-a] [-o outputfile] intval\n".toList ++
          "  intval: integer between 1 and 20000 inclusive\n".toList ++
          "  -e: flip even bits (bit positions 0, 2, 4, ...)\n".toList ++
          "  -f: flip odd bits (bit positions 1, 3, 5, ...)\n".toList ++
          "  -a: flip all bits\n".toList ++
          "  -o file: write output to file instead of screen\n".toList,
        file := none } := by
  obtain ⟨usage, hu, _, h2, h3⟩ := wrong_operand_count lp64 "prog".toList
  subst hu
  exact ⟨h2 [Flag.e, Flag.o "out".toList] [] (by simp) (Or.inl rfl),
    h2 [Flag.f] ["5".toList, "6".toList] (by decide) (Or.inr (by decide)),
    h3 [Flag.a] ["-e".toList, "7".toList] (Or.inr (by decide))⟩

/-- C11: for every command line that holds an option character other than
e, f, a, o, or ends in an `-o` without argument, the run exits with status 1,
writes nothing to standard output or to a file, and its error stream is one
line followed by the usage message, the six lines that start with `Usage:` and
the program name.  The line is the diagnostic of `getopt` for that character;
only with `POSIXLY_CORRECT` set it can be the operand-count line instead,
when `getopt` has stopped at an operand before it.  Options are what `getopt`
reads as options: elements before `--` that start with `-`, the argument of an
`-o` apart.  The same holds whenever the option loop fails at all. -/
theorem unknown_option_usage (w : World) (prog : CStr) :
    ∃ usage : CStr,
      usage = "Usage: ".toList ++ prog ++ " [-e] [-f] [-a] [-o outputfile] intval\n".toList ++
        "  intval: integer between 1 and 20000 inclusive\n".toList ++
        "  -e: flip even bits (bit positions 0, 2, 4, ...)\n".toList ++
        "  -f: flip odd bits (bit positions 1, 3, 5, ...)\n".toList ++
        "  -a: flip all bits\n".toList ++
        "  -o file: write output to file instead of screen\n".toList ∧
      (∀ (args : List CStr) (c : Char), firstBadOption args = some (.invalid c) →
        main w prog args =
          { status := 1, stdout := [],
            stderr := prog ++ ": invalid option -- ".toList ++
              [Char.ofNat 39, c, Char.ofNat 39, Char.ofNat 10] ++ usage,
            file := none } ∨
        (w.posixly_correct = true ∧
          main w prog args =
            { status := 1, stdout := [],
              stderr := "Error: missing or too many arguments\n".toList ++ usage,
              file := none })) ∧
      (∀ (args : List CStr), firstBadOption args = some .missingArg →
        main w prog args =
          { status := 1, stdout := [],
            stderr := prog ++ ": option requires an argument -- ".toList ++
              [Char.ofNat 39, 'o', Char.ofNat 39, Char.ofNat 10] ++ usage,
            file := none } ∨
        (w.posixly_correct = true ∧
          main w prog args =
            { status := 1, stdout := [],
              stderr := "Error: missing or too many arguments\n".toList ++ usage,
              file := none })) ∧
      (∀ (args : List CStr) (out : Outcome),
        option_loop w prog (GetoptState.init args) Options.init = .error out →
        main w prog args = out ∧ out.status = 1 ∧ out.stdout = [] ∧ out.file = none ∧
          ∃ diag, out.stderr = diag ++ usage) ∧
      (∀ (fl : List Flag) (ops : List CStr) (g : List Flag) (c : Char) (tail : CStr)
          (rest : List CStr),
        (∀ a ∈ ops, NONOPTION_P a = true) → (∀ x ∈ g, x.isOutput = false) →
        c ≠ 'e' → c ≠ 'f' → c ≠ 'a' → c ≠ 'o' →
        '-' :: (clusterChars g ++ c :: tail) ≠ "--".toList →
        main w prog (flagArgs fl ++ (ops ++ ('-' :: (clusterChars g ++ c :: tail)) :: rest)) =
          { status := 1, stdout := [],
            stderr := (if w.posixly_correct = true ∧ ops ≠ [] then
                "Error: missing or too many arguments\n".toList
              else prog ++ ": invalid option -- ".toList ++
                [Char.ofNat 39, c, Char.ofNat 39, Char.ofNat 10]) ++ usage,
            file := none }) ∧
      (∀ (fl : List Flag) (ops : List CStr) (g : List Flag),
        (∀ a ∈ ops, NONOPTION_P a = true) → (∀ x ∈ g, x.isOutput = false) →
        main w prog (flagArgs fl ++ (ops ++ [('-' :: (clusterChars g ++ ['o']))])) =
          { status := 1, stdout := [],
            stderr := (if w.posixly_correct = true ∧ ops ≠ [] then
                "Error: missing or too many arguments\n".toList
              else prog ++ ": option requires an argument -- ".toList ++
                [Char.ofNat 39, 'o', Char.ofNat 39, Char.ofNat 10]) ++ usage,
            file := none }) := by
  refine ⟨PrintUsage prog, rfl, ?_, ?_, ?_, ?_, ?_⟩
  · intro args c hk
    rcases main_first_bad w prog args _ hk with h | ⟨hp, h⟩
    · exact Or.inl h
    · exact Or.inr ⟨hp, h⟩
  · intro args hk
    rcases main_first_bad w prog args _ hk with h | ⟨hp, h⟩
    · exact Or.inl h
    · exact Or.inr ⟨hp, h⟩
  · intro args out h
    refine ⟨by simp only [main, h], option_loop_error w prog _ _ out h⟩
  · intro fl ops g c tail rest hops hg he hf ha ho hdd
    obtain ⟨h1, h2⟩ := main_bad_option w prog fl ops g c tail rest hops hg he hf ha ho hdd
    by_cases hc : w.posixly_correct = true ∧ ops ≠ []
    · rw [if_pos hc, h2 hc.1 hc.2]; rfl
    · rw [if_neg hc]
      apply h1
      by_cases hp : w.posixly_correct = true
      · exact Or.inr (Classical.not_not.1 (fun h => hc ⟨hp, h⟩))
      · exact Or.inl (by simpa using hp)
  · intro fl ops g hops hg
    obtain ⟨h1, h2⟩ := main_missing_arg w prog fl ops g hops hg
    by_cases hc : w.posixly_correct = true ∧ ops ≠ []
    · rw [if_pos hc, h2 hc.1 hc.2]; rfl
    · rw [if_neg hc]
      apply h1
      by_cases hp : w.posixly_correct = true
      · exact Or.inr (Classical.not_not.1 (fun h => hc ⟨hp, h⟩))
      · exact Or.inl (by simpa using hp)

/-- The runs `prog 5 -o -x -fz 7`, where `-x` is the argument of `-o` and z
is not an option, and `prog -a 5 -eo`, where `-o` has no argument. -/
theorem unknown_option_usage_witness :
    main lp64 "prog".toList
        ["5".toList, "-o".toList, "-x".toList, "-fz".toList, "7".toList] =
      { status := 1, stdout := [],
        stderr := "prog: invalid option -- 'z'\n".toList ++
          "Usage: prog [-e] [-f] [-a] [-o outputfile] intval\n".toList ++
          "  intval: integer between 1 and 20000 inclusive\n".toList ++
          "  -e: flip even bits (bit positions 0, 2, 4, ...)\n".toList ++
          "  -f: flip odd bits (bit positions 1, 3, 5, ...)\n".toList ++
          "  -a: flip all bits\n".toList ++
          "  -o file: write output to file instead of screen\n".toList,
        file := none } ∧
    main lp64 "prog".toList ["-a".toList, "5".toList, "-eo".toList] =
      { status := 1, stdout := [],
        stderr := "prog: option requires an argument -- 'o'\n".toList ++
          "Usage: prog [-e] [-f] [-a] [-o outputfile] intval\n".toList ++
          "  intval: integer between 1 and 20000 inclusive\n".toList ++
          "  -e: flip even bits (bit positions 0, 2, 4, ...)\n".toList ++
          "  -f: flip odd bits (bit positions 1, 3, 5, ...)\n".toList ++
          "  -a: flip all bits\n".toList ++
          "  -o file: write output to file instead of screen\n".toList,
        file := none } := by
  obtain ⟨usage, hu, h1, h2, _, _, _⟩ := unknown_option_usage lp64 "prog".toList
  subst hu
  exact ⟨(h1 ["5".toList, "-o".toList, "-x".toList, "-fz".toList, "7".toList] 'z'
      (by decide)).resolve_right (fun h => absurd h.1 (by decide)),
    (h2 ["-a".toList, "5".toList, "-eo".toList]
      (by decide)).resolve_right (fun h => absurd h.1 (by decide))⟩

/-- C12: for every argument vector the exit status is 0 or 1; with status 1
nothing is on standard output and no file was written; with status 0 what was
written, to standard output or to the one file, starts with the `Value:` line
of a number in [1, 20000], and nothing went to the other destination. -/
theorem errors_atomic (w : World) (prog : CStr) (args : List CStr) :
    ((main w prog args).status = 0 ∨ (main w prog args).status = 1) ∧
    ((main w prog args).status = 1 →
      (main w prog args).stdout = [] ∧ (main w prog args).file = none) ∧
    ((main w prog args).status = 0 → ∃ n more, 1 ≤ n ∧ n ≤ 20000 ∧
      (((main w prog args).file = none ∧
        (main w prog args).stdout = "Value: ".toList ++ fmt_u n ++ "\n".toList ++ more) ∨
       ((main w prog args).stdout = [] ∧ ∃ path, (main w prog args).file =
          some (path, "Value: ".toList ++ fmt_u n ++ "\n".toList ++ more)))) := by
  have key : ((main w prog args).status = 1 ∧ (main w prog args).stdout = [] ∧
        (main w prog args).file = none) ∨
      ((main w prog args).status = 0 ∧ ∃ n more, 1 ≤ n ∧ n ≤ 20000 ∧
        (((main w prog args).file = none ∧
          (main w prog args).stdout = "Value: ".toList ++ fmt_u n ++ "\n".toList ++ more) ∨
         ((main w prog args).stdout = [] ∧ ∃ path, (main w prog args).file =
            some (path, "Value: ".toList ++ fmt_u n ++ "\n".toList ++ more)))) := by
    cases hl : option_loop w prog (GetoptState.init args) Options.init with
    | error out =>
      obtain ⟨h1, h2, h3, _⟩ := option_loop_error w prog _ _ out hl
      simp only [main, hl]
      exact Or.inl ⟨h1, h2, h3⟩
    | ok r =>
      obtain ⟨o, s⟩ := r
      simp only [main, hl]
      exact main_rest_shape w prog o s
  rcases key with ⟨h1, h2, h3⟩ | ⟨h0, h⟩
  · exact ⟨Or.inr h1, fun _ => ⟨h2, h3⟩, fun h => by rw [h1] at h; exact absurd h (by decide)⟩
  · exact ⟨Or.inl h0, fun h => by rw [h0] at h; exact absurd h (by decide), fun _ => h⟩

/-- C13 as stated fails: the path `/dev/stdout` opens, and the run
`prog -o /dev/stdout -e 100` writes its two lines to standard output. -/
theorem output_to_dev_stdout :
    lp64.fopen_errno "/dev/stdout".toList = none ∧
    main lp64 "prog".toList
        ["-o".toList, "/dev/stdout".toList, "-e".toList, "100".toList] =
      { status := 0, stdout := "Value: 100\nEven bits flipped: 21809\n".toList,
        stderr := [], file := none } ∧
    (main lp64 "prog".toList
        ["-o".toList, "/dev/stdout".toList, "-e".toList, "100".toList]).stdout ≠ [] := by
  have h := main_flags_output_last lp64 "prog".toList [] [Flag.e] "/dev/stdout".toList 100
    (by decide) (by decide) (by decide)
  rw [report_flags _ 100 (by decide)] at h
  have h1 : main lp64 "prog".toList
      ["-o".toList, "/dev/stdout".toList, "-e".toList, "100".toList] =
      { status := 0, stdout := "Value: 100\nEven bits flipped: 21809\n".toList,
        stderr := [], file := none } := h
  refine ⟨rfl, h1, ?_⟩
  rw [h1]
  decide

/-- C13, amended: for every valid n, every sequence of the flags -e, -f, -a
and every path that opens, the run with `-o path` put anywhere among the flags
exits with status 0; if the path does not name the standard output of the
process, the run writes nothing to standard output and leaves in the file
exactly the text the run without `-o` writes to standard output; if the path
does name it, the run is the run without `-o`.  The run
`prog -o /tmp/out.txt -e 100` leaves `Value: 100` and `Even bits flipped: 21809`
in the file. -/
theorem output_file_same_text (w : World) (prog : CStr) (fl1 fl2 : List Flag) (p : CStr)
    (n : Nat) (h1 : 1 ≤ n) (h2 : n ≤ 20000)
    (hfl1 : ∀ x ∈ fl1, x.isOutput = false) (hfl2 : ∀ x ∈ fl2, x.isOutput = false)
    (hopen : w.fopen_errno p = none) :
    (∃ text,
      main w prog (flagArgs (fl1 ++ fl2) ++ [fmt_u n]) =
        { status := 0, stdout := text, stderr := [], file := none } ∧
      (w.names_stdout p = false →
        main w prog (flagArgs (fl1 ++ Flag.o p :: fl2) ++ [fmt_u n]) =
          { status := 0, stdout := [], stderr := [], file := some (p, text) }) ∧
      (w.names_stdout p = true →
        main w prog (flagArgs (fl1 ++ Flag.o p :: fl2) ++ [fmt_u n]) =
          { status := 0, stdout := text, stderr := [], file := none })) ∧
    (w.fopen_errno "/tmp/out.txt".toList = none →
      w.names_stdout "/tmp/out.txt".toList = false →
      main w prog ["-o".toList, "/tmp/out.txt".toList, "-e".toList, "100".toList] =
        { status := 0, stdout := [], stderr := [],
          file := some ("/tmp/out.txt".toList,
            "Value: 100\nEven bits flipped: 21809\n".toList) }) := by
  constructor
  · refine ⟨report ((fl1 ++ fl2).foldl Options.set Options.init) n, ?_, ?_, ?_⟩
    · exact main_flags_valid w prog (fl1 ++ fl2) n h1 h2 (by
        intro x hx
        rcases List.mem_append.1 hx with h | h
        · exact hfl1 x h
        · exact hfl2 x h)
    · intro hns
      rw [main_flags_output_last w prog fl1 fl2 p n h1 h2 hfl2, hopen]
      simp [hns]
    · intro hns
      rw [main_flags_output_last w prog fl1 fl2 p n h1 h2 hfl2, hopen]
      simp [hns]
  · intro ho hns
    have h := main_flags_output_last w prog [] [Flag.e] "/tmp/out.txt".toList 100
      (by decide) (by decide) (by decide)
    rw [ho, report_flags _ 100 (by decide)] at h
    simp only [hns, Bool.false_eq_true, if_false] at h
    exact h

/-- The runs `prog -e -o out -a 9` and `prog -e -a 9`. -/
theorem output_file_same_text_witness :
    (∃ text,
      main lp64 "prog".toList ["-e".toList, "-a".toList, "9".toList] =
        { status := 0, stdout := text, stderr := [], file := none } ∧
      (lp64.names_stdout "out".toList = false →
        main lp64 "prog".toList ["-e".toList, "-o".toList, "out".toList, "-a".toList,
            "9".toList] =
          { status := 0, stdout := [], stderr := [], file := some ("out".toList, text) }) ∧
      (lp64.names_stdout "out".toList = true →
        main lp64 "prog".toList ["-e".toList, "-o".toList, "out".toList, "-a".toList,
            "9".toList] =
          { status := 0, stdout := text, stderr := [], file := none })) ∧
    (lp64.fopen_errno "/tmp/out.txt".toList = none →
      lp64.names_stdout "/tmp/out.txt".toList = false →
      main lp64 "prog".toList ["-o".toList, "/tmp/out.txt".toList, "-e".toList, "100".toList] =
        { status := 0, stdout := [], stderr := [],
          file := some ("/tmp/out.txt".toList,
            "Value: 100\nEven bits flipped: 21809\n".toList) }) :=
  output_file_same_text lp64 "prog".toList [Flag.e] [Flag.a] "out".toList 9
    (by decide) (by decide) (by decide) (by decide) rfl

/-- C14: whenever the check of line 75 passes, the conversion to `uint16_t`
leaves the number `strtoul` returned unchanged, so `original`, which is printed
on the value line and used in every XOR, is that number. -/
theorem narrowing_lossless (w : World) (o : Options) (arg : CStr)
    (hpass : ¬ ((strtoul w.abi.ULONG_MAX arg).2 ≠ [] ∨ (strtoul w.abi.ULONG_MAX arg).1 < 1 ∨
      (strtoul w.abi.ULONG_MAX arg).1 > 20000)) :
    uint16 (strtoul w.abi.ULONG_MAX arg).1 = (strtoul w.abi.ULONG_MAX arg).1 ∧
    (strtoul w.abi.ULONG_MAX arg).1 < 65536 ∧
    main_convert w o arg = main_output w o (strtoul w.abi.ULONG_MAX arg).1 := by
  have hlt : (strtoul w.abi.ULONG_MAX arg).1 < 65536 := by
    simp only [not_or, not_lt, gt_iff_lt] at hpass
    omega
  refine ⟨uint16_of_lt _ hlt, hlt, ?_⟩
  unfold main_convert
  simp only
  rw [if_neg hpass, uint16_of_lt _ hlt]

/-- The operand `20000`. -/
theorem narrowing_lossless_witness :
    uint16 (strtoul lp64.abi.ULONG_MAX "20000".toList).1 =
      (strtoul lp64.abi.ULONG_MAX "20000".toList).1 ∧
    (strtoul lp64.abi.ULONG_MAX "20000".toList).1 < 65536 ∧
    main_convert lp64 Options.init "20000".toList =
      main_output lp64 Options.init (strtoul lp64.abi.ULONG_MAX "20000".toList).1 :=
  narrowing_lossless lp64 Options.init "20000".toList (by decide)

/-- C15: for every valid n the value on the `All bits flipped:` line is
65535 - n, a number from 45535 to 65534; the XOR itself, before the conversion
to `uint16_t`, is already that number. -/
theorem all_flip_is_complement (w : World) (prog : CStr) (n : Nat)
    (h1 : 1 ≤ n) (h2 : n ≤ 20000) :
    main w prog ["-a".toList, fmt_u n] =
      { status := 0,
        stdout := "Value: ".toList ++ fmt_u n ++ "\n".toList ++
          ("All bits flipped: ".toList ++ fmt_u (65535 - n) ++ "\n".toList),
        stderr := [], file := none } ∧
    flipped_all n = 65535 - n ∧ n ^^^ 0xFFFF = 65535 - n ∧
    45535 ≤ flipped_all n ∧ flipped_all n ≤ 65534 := by
  have hx : n ^^^ 0xFFFF = 65535 - n := xor_65535 n (by omega)
  have hf : flipped_all n = 65535 - n := by
    unfold flipped_all
    rw [hx, uint16_of_lt _ (by omega)]
  refine ⟨?_, hf, hx, by omega, by omega⟩
  have h := main_flags_valid w prog [Flag.a] n h1 h2 (by decide)
  rw [report_flags [Flag.a] n (by omega), hx] at h
  simpa [flagArgs, Flag.words] using h

/-- The run `prog -a 20000`. -/
theorem all_flip_is_complement_witness :
    main lp64 "prog".toList ["-a".toList, "20000".toList] =
      { status := 0,
        stdout := "Value: ".toList ++ fmt_u 20000 ++ "\n".toList ++
          ("All bits flipped: ".toList ++ fmt_u (65535 - 20000) ++ "\n".toList),
        stderr := [], file := none } ∧
    flipped_all 20000 = 65535 - 20000 ∧ 20000 ^^^ 0xFFFF = 65535 - 20000 ∧
    45535 ≤ flipped_all 20000 ∧ flipped_all 20000 ≤ 65534 :=
  all_flip_is_complement lp64 "prog".toList 20000 (by decide) (by decide)

/-- C16: the even and odd masks share no bit and together are 0xFFFF; for
every 16-bit x, flipping the even bits and then the odd bits, or the odd bits
and then the even bits, is flipping all bits, and the even flip and the odd
flip of x XOR to 0xFFFF. -/
theorem even_odd_partition (x : Nat) (h : x < 65536) :
    0x5555 &&& 0xAAAA = 0 ∧ 0x5555 ||| 0xAAAA = 0xFFFF ∧
    flipped_odd (flipped_even x) = flipped_all x ∧
    flipped_even (flipped_odd x) = flipped_all x ∧
    flipped_even x ^^^ flipped_odd x = 0xFFFF := by
  have hE := uint16_of_lt _ (xor_lt_65536 x 0x5555 h (by decide))
  have hO := uint16_of_lt _ (xor_lt_65536 x 0xAAAA h (by decide))
  refine ⟨by decide, by decide, ?_, ?_, ?_⟩
  · unfold flipped_odd flipped_even flipped_all
    rw [hE, Nat.xor_assoc]
    rfl
  · unfold flipped_odd flipped_even flipped_all
    rw [hO, Nat.xor_assoc]
    rfl
  · unfold flipped_odd flipped_even
    rw [hE, hO, Nat.xor_assoc, ← Nat.xor_assoc 0x5555 x, Nat.xor_comm 0x5555 x,
      Nat.xor_assoc x, ← Nat.xor_assoc x x, Nat.xor_self, Nat.zero_xor]
    rfl

/-- The value 20000. -/
theorem even_odd_partition_witness :
    0x5555 &&& 0xAAAA = 0 ∧ 0x5555 ||| 0xAAAA = 0xFFFF ∧
    flipped_odd (flipped_even 20000) = flipped_all 20000 ∧
    flipped_even (flipped_odd 20000) = flipped_all 20000 ∧
    flipped_even 20000 ^^^ flipped_odd 20000 = 0xFFFF :=
  even_odd_partition 20000 (by decide)

/-- C17: giving -e, -f or -a once more, anywhere among the flags, leaves the
whole outcome of the run as it was; and when `-o` is given several times, the
outcome on a valid operand is decided by the path of the last `-o` alone: if
that path opens, the file of that path receives the text the run without any
`-o` writes to standard output (standard output itself, if that is what the
path names), and if it does not, the run fails on that path. -/
theorem repeated_flags (w : World) (prog : CStr) :
    (∀ (fl1 fl2 : List Flag) (x : Flag) (a : CStr), x.isOutput = false → x ∈ fl1 ++ fl2 →
      NONOPTION_P a = true →
      main w prog (flagArgs (fl1 ++ x :: fl2) ++ [a]) =
        main w prog (flagArgs (fl1 ++ fl2) ++ [a])) ∧
    (∀ (fl1 fl2 : List Flag) (p : CStr) (n : Nat), 1 ≤ n → n ≤ 20000 →
      (∀ x ∈ fl2, x.isOutput = false) →
      main w prog (flagArgs (fl1 ++ Flag.o p :: fl2) ++ [fmt_u n]) =
        match w.fopen_errno p with
        | none =>
          if w.names_stdout p then
            { status := 0,
              stdout := (main w prog (flagArgs
                (fl1.filter (fun x => !x.isOutput) ++ fl2) ++ [fmt_u n])).stdout,
              stderr := [], file := none }
          else
            { status := 0, stdout := [], stderr := [],
              file := some (p, (main w prog (flagArgs
                (fl1.filter (fun x => !x.isOutput) ++ fl2) ++ [fmt_u n])).stdout) }
        | some e =>
          { status := 1, stdout := [],
            stderr := "Error opening output file".toList ++ ": ".toList ++ e ++ "\n".toList,
            file := none }) := by
  constructor
  · intro fl1 fl2 x a hx hmem ha
    rw [main_flags_operand w prog _ a ha, main_flags_operand w prog _ a ha,
      foldl_set_repeat fl1 fl2 x hx hmem]
  · intro fl1 fl2 p n h1 h2 hfl2
    have hno : ∀ x ∈ fl1.filter (fun x => !x.isOutput) ++ fl2, x.isOutput = false := by
      intro x hx
      rcases List.mem_append.1 hx with h | h
      · simpa using (List.mem_filter.1 h).2
      · exact hfl2 x h
    rw [main_flags_output_last w prog fl1 fl2 p n h1 h2 hfl2,
      main_flags_valid w prog _ n h1 h2 hno, report_flags _ n (by omega),
      report_flags _ n (by omega)]
    simp [List.mem_filter, Flag.isOutput]

/-- The runs `prog -e -f -e 5` against `prog -e -f 5`, and
`prog -o first -a -o last -e 6`. -/
theorem repeated_flags_witness :
    main lp64 "prog".toList ["-e".toList, "-f".toList, "-e".toList, "5".toList] =
      main lp64 "prog".toList ["-e".toList, "-f".toList, "5".toList] ∧
    main lp64 "prog".toList ["-o".toList, "first".toList, "-a".toList, "-o".toList,
        "last".toList, "-e".toList, "6".toList] =
      { status := 0, stdout := [], stderr := [],
        file := some ("last".toList,
          (main lp64 "prog".toList ["-a".toList, "-e".toList, "6".toList]).stdout) } :=
  ⟨(repeated_flags lp64 "prog".toList).1 [Flag.e, Flag.f] [] Flag.e "5".toList
      rfl (by decide) (by decide),
    (repeated_flags lp64 "prog".toList).2 [Flag.o "first".toList, Flag.a] [Flag.e]
      "last".toList 6 (by decide) (by decide) (by decide)⟩

end Bitflip
